import Mathlib

/-!
Verification development for the `ymd` calendar-date library.

The library stores a calendar date as `{year, monthZeroIndexed, dayOfMonth}`,
parses it from / serializes it to the canonical `yyyy-MM-dd` string, and layers
arithmetic, comparison, weekday-search and calendar-grid operations on top.
All date arithmetic in the source delegates to the JavaScript `Date` value
produced by `asDateAtLocal()` (that is, `new Date(year, monthZeroIndexed, day)`)
and to date-fns' calendar-aware day/month addition; those collaborators are
modelled here by an explicit proleptic-Gregorian civil-date type `CivilDate`
with a day-number function, successor/predecessor stepping, and the clamping
month addition.  Two behaviours of the JavaScript runtime are modelled
faithfully because they are observable through the library's API:

* `new Date(y, m, d)` maps the years 0..99 to 1900..1999 (`mapYear`);
* serialization writes the year with `${year}` (no padding), and every
  construction route re-parses a formatted string against the fixed
  `\d{4}-\d{2}-\d{2}` pattern, so years outside 1000..9999 cannot round-trip.

String formatting of numbers is modelled by `decimalRepr`/`intRepr`
(shortest decimal form, as JavaScript's `String(n)`), and `padStart(2, '0')`
by `pad2`.
-/

/-- Decimal digit character for `n ≤ 9`, as in JavaScript number printing. -/
def digitChar (n : Nat) : Char :=
  Char.ofNat (48 + n)

/-- Numeric value of a decimal digit character. -/
def digitVal (c : Char) : Nat :=
  c.toNat - 48

/-- Fuel-driven core of decimal printing (the fuel is an upper bound on the
number of digits; `decimalRepr` always supplies enough). -/
def decimalReprAux : Nat → Nat → List Char
  | 0, _ => []
  | fuel + 1, n =>
    if n < 10 then [digitChar n]
    else decimalReprAux fuel (n / 10) ++ [digitChar (n % 10)]

/-- Shortest decimal representation of a natural number, modelling
JavaScript's `String(n)` for a nonnegative integer. -/
def decimalRepr (n : Nat) : List Char :=
  decimalReprAux (n + 1) n

/-- JavaScript's `String(n)` for an integer (a leading `-` for negatives). -/
def intRepr (n : Int) : List Char :=
  if n < 0 then '-' :: decimalRepr (-n).toNat else decimalRepr n.toNat

/-- JavaScript's `padStart(2, '0')`, as used by `padDayOrMonth`. -/
def pad2 (l : List Char) : List Char :=
  List.replicate (2 - l.length) '0' ++ l

/-- Proleptic-Gregorian leap-year test (the rule used by JavaScript `Date`). -/
def isLeap (y : Int) : Bool :=
  (y % 4 == 0 && !(y % 100 == 0)) || y % 400 == 0

/-- Number of days of the zero-indexed month `m` of year `y`. -/
def daysInMonth (y : Int) (m : Nat) : Nat :=
  if m = 1 then (if isLeap y then 29 else 28)
  else if m = 3 ∨ m = 5 ∨ m = 8 ∨ m = 10 then 30
  else 31

/-- A civil (proleptic-Gregorian) date as held by a JavaScript `Date` at local
midnight: arbitrary year, zero-indexed month, 1-based day of month. -/
structure CivilDate where
  year : Int
  month : Nat
  day : Nat
deriving DecidableEq, Repr

/-- The asserted field ranges of a real civil date. -/
def CivilDate.Valid (c : CivilDate) : Prop :=
  c.month ≤ 11 ∧ 1 ≤ c.day ∧ c.day ≤ daysInMonth c.year c.month

instance (c : CivilDate) : Decidable c.Valid := by
  unfold CivilDate.Valid; infer_instance

/-- Shifted year of the March-based calendar (January and February belong to
the previous shifted year). -/
def sYear (c : CivilDate) : Int :=
  if c.month ≤ 1 then c.year - 1 else c.year

/-- Shifted month index: March is 0, ..., January is 10, February is 11. -/
def sMonth (c : CivilDate) : Nat :=
  if c.month ≤ 1 then c.month + 10 else c.month - 2

/-- Days from the start of the shifted year to the start of shifted month
`sm` (values 0, 31, 61, 92, ..., 337). -/
def monthOffset (sm : Nat) : Nat :=
  (153 * sm + 2) / 5

/-- Day number of March 1 of the shifted year `sy`, counted from March 1 of
shifted year 0, for every integer `sy` (floor divisions). -/
def daysBeforeSYear (sy : Int) : Int :=
  365 * sy + sy / 4 - sy / 100 + sy / 400

/-- Day number of a civil date: the count of days since 0000-03-01 of the
proleptic-Gregorian calendar (1970-01-01 is day 719468).  This is the
timeline on which JavaScript `Date` values of local midnights are ordered. -/
def dayNumber (c : CivilDate) : Int :=
  daysBeforeSYear (sYear c) + (monthOffset (sMonth c) : Int) + (c.day : Int) - 1

/-- Next civil day. -/
def succCivil (c : CivilDate) : CivilDate :=
  if c.day < daysInMonth c.year c.month then ⟨c.year, c.month, c.day + 1⟩
  else if c.month < 11 then ⟨c.year, c.month + 1, 1⟩
  else ⟨c.year + 1, 0, 1⟩

/-- Previous civil day. -/
def predCivil (c : CivilDate) : CivilDate :=
  if 1 < c.day then ⟨c.year, c.month, c.day - 1⟩
  else if c.month = 0 then ⟨c.year - 1, 11, 31⟩
  else ⟨c.year, c.month - 1, daysInMonth c.year (c.month - 1)⟩

/-- Calendar-aware day addition (model of date-fns `addDays` on a local
midnight: the calendar date advances by exactly `n` days). -/
def addDaysCivil (c : CivilDate) (n : Int) : CivilDate :=
  if 0 ≤ n then succCivil^[n.toNat] c else predCivil^[(-n).toNat] c

/-- Calendar-aware month addition with day-of-month clamping (model of
date-fns `addMonths`). -/
def addMonthsCivil (c : CivilDate) (n : Int) : CivilDate :=
  let t : Int := c.year * 12 + (c.month : Int) + n
  let y : Int := t / 12
  let m : Nat := (t % 12).toNat
  ⟨y, m, min c.day (daysInMonth y m)⟩

/-- Weekday of a civil date, 0 = Sunday .. 6 = Saturday (model of
`Date.prototype.getDay` / date-fns `getDay` at local midnight). -/
def getDayCivil (c : CivilDate) : Nat :=
  ((dayNumber c + 3) % 7).toNat

/-- date-fns `previousDay`: the latest strictly-earlier date whose weekday is
`target` (`delta = getDay(date) - target; if (delta <= 0) delta += 7`). -/
def previousDayCivil (c : CivilDate) (target : Nat) : CivilDate :=
  let delta0 : Int := (getDayCivil c : Int) - (target : Int)
  let delta : Int := if delta0 ≤ 0 then delta0 + 7 else delta0
  addDaysCivil c (-delta)

/-- date-fns `nextDay`: the earliest strictly-later date whose weekday is
`target`. -/
def nextDayCivil (c : CivilDate) (target : Nat) : CivilDate :=
  let delta0 : Int := (target : Int) - (getDayCivil c : Int)
  let delta : Int := if delta0 ≤ 0 then delta0 + 7 else delta0
  addDaysCivil c delta

/-- The error outcomes of the library: the plain `Error('Invalid date
format. Expected yyyy-MM-dd')`, the distinct `YmdInvalidDateError`, and
the plain range error of `countDaysInclusive` (each throw site carries a
distinct message/class and is distinguishable by callers). -/
inductive YmdError where
  | formatError
  | invalidDateError
  | rangeOrderError
deriving DecidableEq, Repr

/-- The `Ymd` value object: the fields extracted by the constructor. -/
structure Ymd where
  year : Nat
  monthZeroIndexed : Nat
  dayOfMonth : Nat
deriving DecidableEq, Repr

/-- The constructor's invariant: fields of a real proleptic-Gregorian date
with a four-or-fewer-digit year (every successfully parsed `Ymd` satisfies
this). -/
def Ymd.Valid (x : Ymd) : Prop :=
  x.year ≤ 9999 ∧ x.monthZeroIndexed ≤ 11 ∧ 1 ≤ x.dayOfMonth ∧
    x.dayOfMonth ≤ daysInMonth (x.year : Int) x.monthZeroIndexed

instance (x : Ymd) : Decidable x.Valid := by
  unfold Ymd.Valid; infer_instance

/-- The `Ymd` constructor: test the string against `/^\d{4}-\d{2}-\d{2}$/`
(else the plain format `Error`), then let `new Date(value)` interpret the
three fields as a proleptic-Gregorian UTC date (an impossible date yields an
invalid `Date`, hence `YmdInvalidDateError`), and store the extracted
year / zero-indexed month / day. -/
def Ymd.parse (s : String) : Except YmdError Ymd :=
  match s.data with
  | [y1, y2, y3, y4, h1, m1, m2, h2, d1, d2] =>
    if y1.isDigit && y2.isDigit && y3.isDigit && y4.isDigit && h1 == '-' &&
        m1.isDigit && m2.isDigit && h2 == '-' && d1.isDigit && d2.isDigit then
      let y : Nat := 1000 * digitVal y1 + 100 * digitVal y2 + 10 * digitVal y3 + digitVal y4
      let mm : Nat := 10 * digitVal m1 + digitVal m2
      let dd : Nat := 10 * digitVal d1 + digitVal d2
      if 1 ≤ mm ∧ mm ≤ 12 ∧ 1 ≤ dd ∧ dd ≤ daysInMonth (y : Int) (mm - 1) then
        .ok ⟨y, mm - 1, dd⟩
      else .error .invalidDateError
    else .error .formatError
  | _ => .error .formatError

/-- The canonical string `${y}-${pad2 mm}-${pad2 dd}` built from natural
number fields. -/
def mkCanonical (y mm dd : Nat) : String :=
  ⟨decimalRepr y ++ '-' :: (pad2 (decimalRepr mm) ++ '-' :: pad2 (decimalRepr dd))⟩

/-- The same template applied to JavaScript numbers that may be negative. -/
def mkCanonicalI (y mm dd : Int) : String :=
  ⟨intRepr y ++ '-' :: (pad2 (intRepr mm) ++ '-' :: pad2 (intRepr dd))⟩

/-- The `value` getter: `${year}-${padDayOrMonth(monthZeroIndexed + 1)}-${padDayOrMonth(dayOfMonth)}`. -/
def Ymd.value (x : Ymd) : String :=
  mkCanonical x.year (x.monthZeroIndexed + 1) x.dayOfMonth

/-- `Ymd.isValid`: construction succeeds and re-serializing yields the input. -/
def Ymd.isValid (s : String) : Bool :=
  match Ymd.parse s with
  | .ok x => x.value == s
  | .error _ => false

/-- JavaScript's two-digit-year rule of `new Date(y, m, d)`: the years 0..99
denote 1900..1999. -/
def mapYear (y : Nat) : Int :=
  if y ≤ 99 then 1900 + (y : Int) else (y : Int)

/-- `asDateAtLocal()`, i.e. `new Date(year, monthZeroIndexed, dayOfMonth)` at
local midnight: the civil date reached from the first of the (year-mapped)
month by advancing `dayOfMonth - 1` days (JavaScript `MakeDay` semantics,
including normalization of a day count that overflows the month). -/
def Ymd.asDateAtLocal (x : Ymd) : CivilDate :=
  addDaysCivil ⟨mapYear x.year, x.monthZeroIndexed, 1⟩ ((x.dayOfMonth : Int) - 1)

/-- Day number of the `Date` produced by `asDateAtLocal` — the key on which
the library compares, subtracts and iterates dates. -/
def dayNumberL (x : Ymd) : Int :=
  dayNumber x.asDateAtLocal

/-- `Ymd.fromDateAtLocal`: format the civil date back to
`${year}-${pad(month+1)}-${pad(day)}` and run the constructor on it. -/
def fromDateAtLocal (c : CivilDate) : Except YmdError Ymd :=
  Ymd.parse (mkCanonicalI c.year ((c.month : Int) + 1) (c.day : Int))

/-- `addDays`: date-fns day addition on `asDateAtLocal`, re-extracted through
`fromDateAtLocal`. -/
def Ymd.addDays (x : Ymd) (count : Int) : Except YmdError Ymd :=
  fromDateAtLocal (addDaysCivil x.asDateAtLocal count)

/-- `addMonths`: date-fns month addition (with day clamping) on
`asDateAtLocal`, re-extracted through `fromDateAtLocal`. -/
def Ymd.addMonths (x : Ymd) (count : Int) : Except YmdError Ymd :=
  fromDateAtLocal (addMonthsCivil x.asDateAtLocal count)

/-- The `dayOfWeek` getter, 0 = Sunday .. 6 = Saturday. -/
def Ymd.dayOfWeek (x : Ymd) : Nat :=
  getDayCivil x.asDateAtLocal

/-- `previousDayOfWeekOccurrence`: date-fns `previousDay` then re-extraction. -/
def Ymd.previousDayOfWeekOccurrence (x : Ymd) (dow : Nat) : Except YmdError Ymd :=
  fromDateAtLocal (previousDayCivil x.asDateAtLocal dow)

/-- `nextDayOfWeekOccurrence`: date-fns `nextDay` then re-extraction. -/
def Ymd.nextDayOfWeekOccurrence (x : Ymd) (dow : Nat) : Except YmdError Ymd :=
  fromDateAtLocal (nextDayCivil x.asDateAtLocal dow)

/-- `currentOrPreviousDayOfWeekOccurrence`: `this` when the weekday already
matches, else the strict-previous search. -/
def Ymd.currentOrPreviousDayOfWeekOccurrence (x : Ymd) (dow : Nat) : Except YmdError Ymd :=
  if x.dayOfWeek = dow then .ok x else x.previousDayOfWeekOccurrence dow

/-- `currentOrNextDayOfWeekOccurrence`: `this` when the weekday already
matches, else the strict-next search. -/
def Ymd.currentOrNextDayOfWeekOccurrence (x : Ymd) (dow : Nat) : Except YmdError Ymd :=
  if x.dayOfWeek = dow then .ok x else x.nextDayOfWeekOccurrence dow

/-- `Ymd.build(year, monthZeroIndexed, dayOfMonth)`: format the components
into the template string and run the constructor on it. -/
def Ymd.build (y m d : Int) : Except YmdError Ymd :=
  Ymd.parse (mkCanonicalI y (m + 1) d)

/-- `startOfMonth()`: `Ymd.build(year, monthZeroIndexed, 1)`. -/
def Ymd.startOfMonth (x : Ymd) : Except YmdError Ymd :=
  Ymd.build (x.year : Int) (x.monthZeroIndexed : Int) 1

/-- `endOfMonth()`: `startOfMonth().addMonths(1).addDays(-1)`. -/
def Ymd.endOfMonth (x : Ymd) : Except YmdError Ymd := do
  let s ← x.startOfMonth
  let t ← s.addMonths 1
  t.addDays (-1)

/-- `gt`: comparison of the two `asDateAtLocal()` time values. -/
def Ymd.gt (a b : Ymd) : Bool :=
  decide (dayNumberL b < dayNumberL a)

/-- `gte`: comparison of the two `asDateAtLocal()` time values. -/
def Ymd.gte (a b : Ymd) : Bool :=
  decide (dayNumberL b ≤ dayNumberL a)

/-- `lt`: comparison of the two `asDateAtLocal()` time values. -/
def Ymd.lt (a b : Ymd) : Bool :=
  decide (dayNumberL a < dayNumberL b)

/-- `lte`: comparison of the two `asDateAtLocal()` time values. -/
def Ymd.lte (a b : Ymd) : Bool :=
  decide (dayNumberL a ≤ dayNumberL b)

/-- `eq`: equality of the two canonical strings. -/
def Ymd.eq (a b : Ymd) : Bool :=
  a.value == b.value

/-- `differenceInDays({from, to})`: date-fns signed day difference
`differenceInDays(to.asDateAtLocal(), from.asDateAtLocal())`. -/
def Ymd.differenceInDays (f t : Ymd) : Int :=
  dayNumberL t - dayNumberL f

/-- `compareAsc(a, b) = differenceInDays({from: b, to: a})`. -/
def Ymd.compareAsc (a b : Ymd) : Int :=
  Ymd.differenceInDays b a

/-- `compareDesc(a, b) = -compareAsc(a, b)`. -/
def Ymd.compareDesc (a b : Ymd) : Int :=
  - Ymd.compareAsc a b

/-- `countDaysInclusive({from, to})`: throws the range-order error when
`from.gt(to)`, else `differenceInCalendarDays(to, from) + 1`. -/
def Ymd.countDaysInclusive (f t : Ymd) : Except YmdError Int :=
  if f.gt t then .error .rangeOrderError
  else .ok (dayNumberL t - dayNumberL f + 1)

/-- The inclusive enumeration loop of `dayArray`
(`while (curr.lte(to)) { interval.push(curr); curr = curr.addDays(1); }`),
driven by a fuel that `dayArray` sets to the exact number of loop iterations
(`0` exactly when the loop body never runs). -/
def Ymd.dayArrayAux : Nat → Ymd → Ymd → Except YmdError (List Ymd)
  | 0, _, _ => .ok []
  | fuel + 1, t, curr =>
    if curr.lte t then
      match curr.addDays 1 with
      | .error e => .error e
      | .ok next => (Ymd.dayArrayAux fuel t next).map (curr :: ·)
    else .ok []

/-- `dayArray({from, to})`: the eager inclusive enumeration. -/
def Ymd.dayArray (f t : Ymd) : Except YmdError (List Ymd) :=
  Ymd.dayArrayAux (dayNumberL t + 1 - dayNumberL f).toNat t f

/-- The lazy generator loop of `dayGenerator`: the pair of the sequence of
dates actually yielded and the terminal error, if the loop's `addDays` throws
on the cursor after a yield. -/
def Ymd.dayGenAux : Nat → Ymd → Ymd → List Ymd × Option YmdError
  | 0, _, _ => ([], none)
  | fuel + 1, t, curr =>
    if curr.lte t then
      match curr.addDays 1 with
      | .error e => ([curr], some e)
      | .ok next =>
        let p := Ymd.dayGenAux fuel t next
        (curr :: p.1, p.2)
    else ([], none)

/-- `dayGenerator({from, to})`: the lazy inclusive enumeration — the yielded
sequence of one full drain of a fresh generator, with its terminal error. -/
def Ymd.dayGenerator (f t : Ymd) : List Ymd × Option YmdError :=
  Ymd.dayGenAux (dayNumberL t + 1 - dayNumberL f).toNat t f

/-- `calendarMonthDateRange({weekStartsOnWeekDayIdx})`: pad the month to whole
weeks — start at the current-or-previous occurrence of the week-start day
before the month's first day, end at the current-or-next occurrence of
`(weekStart + 7 - 1) % 7` after the month's last day. -/
def Ymd.calendarMonthDateRange (x : Ymd) (weekStartsOnWeekDayIdx : Nat) :
    Except YmdError (Ymd × Ymd) := do
  let monthStartYmd ← x.startOfMonth
  let lastDayInMonth ← x.endOfMonth
  let weekEndsOnDayOfWeek := (weekStartsOnWeekDayIdx + 7 - 1) % 7
  let s ← monthStartYmd.currentOrPreviousDayOfWeekOccurrence weekStartsOnWeekDayIdx
  let e ← lastDayInMonth.currentOrNextDayOfWeekOccurrence weekEndsOnDayOfWeek
  return (s, e)

/-- The chunking loop of `calendarWeeksForMonth`
(`while (allDates.length) weeks.push(allDates.splice(0, 7))`), driven by a
fuel that the wrapper sets to the list length (more than enough iterations). -/
def chunksOf7Aux {α : Type} : Nat → List α → List (List α)
  | 0, _ => []
  | fuel + 1, l =>
    if l.isEmpty then [] else l.take 7 :: chunksOf7Aux fuel (l.drop 7)

/-- Partition a list into consecutive groups of 7. -/
def chunksOf7 {α : Type} (l : List α) : List (List α) :=
  chunksOf7Aux l.length l

/-- `calendarWeeksForMonth({weekStartsOnWeekDayIdx})`: enumerate the padded
range inclusively and split it into weeks of 7. -/
def Ymd.calendarWeeksForMonth (x : Ymd) (weekStartsOnWeekDayIdx : Nat) :
    Except YmdError (List (List Ymd)) := do
  let r ← x.calendarMonthDateRange weekStartsOnWeekDayIdx
  let allDates ← Ymd.dayArray r.1 r.2
  return chunksOf7 allDates

/-- The untruncated civil date denoted by a `Ymd`'s fields. -/
def civilOfYmd (x : Ymd) : CivilDate :=
  ⟨(x.year : Int), x.monthZeroIndexed, x.dayOfMonth⟩

/-- The `Ymd` with the fields of a (nonnegative-year) civil date. -/
def toYmd (c : CivilDate) : Ymd :=
  ⟨c.year.toNat, c.month, c.day⟩

/-- The expected result list of the enumeration loop: `n` consecutive dates
from `c` on. -/
def rangeList (c : CivilDate) (n : Nat) : List Ymd :=
  (List.range n).map (fun (i : Nat) => toYmd (addDaysCivil c (i : Int)))

/-- The character shape of `/^\d{4}-\d{2}-\d{2}$/`, stated positionally. -/
def shapeOk (l : List Char) : Bool :=
  l.length == 10 &&
    (l.getD 0 ' ').isDigit && (l.getD 1 ' ').isDigit &&
    (l.getD 2 ' ').isDigit && (l.getD 3 ' ').isDigit &&
    (l.getD 4 ' ') == '-' &&
    (l.getD 5 ' ').isDigit && (l.getD 6 ' ').isDigit &&
    (l.getD 7 ' ') == '-' &&
    (l.getD 8 ' ').isDigit && (l.getD 9 ' ').isDigit

/-- The year field (positions 0-3) of a canonical string. -/
def yearOf (l : List Char) : Nat :=
  1000 * digitVal (l.getD 0 ' ') + 100 * digitVal (l.getD 1 ' ') +
    10 * digitVal (l.getD 2 ' ') + digitVal (l.getD 3 ' ')

/-- The month field (positions 5-6, 1-based month) of a canonical string. -/
def monthFieldOf (l : List Char) : Nat :=
  10 * digitVal (l.getD 5 ' ') + digitVal (l.getD 6 ' ')

/-- The day field (positions 8-9) of a canonical string. -/
def dayFieldOf (l : List Char) : Nat :=
  10 * digitVal (l.getD 8 ' ') + digitVal (l.getD 9 ' ')

/-- A well-shaped string's three fields denote a real proleptic-Gregorian
calendar date. -/
def RealFields (l : List Char) : Prop :=
  1 ≤ monthFieldOf l ∧ monthFieldOf l ≤ 12 ∧ 1 ≤ dayFieldOf l ∧
    dayFieldOf l ≤ daysInMonth (yearOf l : Int) (monthFieldOf l - 1)

instance (l : List Char) : Decidable (RealFields l) := by
  unfold RealFields; infer_instance

/-- Strict lexicographic order on civil-date fields — the real chronological
order of civil dates. -/
def lexLtCivil (a b : CivilDate) : Prop :=
  a.year < b.year ∨ (a.year = b.year ∧ (a.month < b.month ∨
    (a.month = b.month ∧ a.day < b.day)))

/-- Strict lexicographic order on `Ymd` fields — the real chronological order
of the denoted dates. -/
def lexLtYmd (a b : Ymd) : Prop :=
  a.year < b.year ∨ (a.year = b.year ∧ (a.monthZeroIndexed < b.monthZeroIndexed ∨
    (a.monthZeroIndexed = b.monthZeroIndexed ∧ a.dayOfMonth < b.dayOfMonth)))

instance (a b : Ymd) : Decidable (lexLtYmd a b) := by
  unfold lexLtYmd; infer_instance

/-! ### Digit and decimal-printing lemmas -/

theorem isDigit_toNat {c : Char} (h : c.isDigit = true) : 48 ≤ c.toNat ∧ c.toNat ≤ 57 := by
  simp [Char.isDigit] at h
  exact h

theorem digitChar_isDigit {n : Nat} (h : n ≤ 9) : (digitChar n).isDigit = true := by
  interval_cases n <;> decide

theorem digitVal_digitChar {n : Nat} (h : n ≤ 9) : digitVal (digitChar n) = n := by
  interval_cases n <;> decide

theorem digitChar_digitVal {c : Char} (h : c.isDigit = true) : digitChar (digitVal c) = c := by
  obtain ⟨h1, h2⟩ := isDigit_toNat h
  unfold digitChar digitVal
  have h3 : 48 + (c.toNat - 48) = c.toNat := by omega
  rw [h3]
  exact Char.ofNat_toNat c

theorem digitVal_le_of_isDigit {c : Char} (h : c.isDigit = true) : digitVal c ≤ 9 := by
  obtain ⟨h1, h2⟩ := isDigit_toNat h
  unfold digitVal; omega

theorem decimalReprAux_small {fuel n : Nat} (hn : n < 10) (hf : 1 ≤ fuel) :
    decimalReprAux fuel n = [digitChar n] := by
  cases fuel with
  | zero => omega
  | succ f => simp [decimalReprAux, hn]

theorem decimalReprAux_step {fuel n : Nat} (hn : 10 ≤ n) (hf : 1 ≤ fuel) :
    decimalReprAux fuel n = decimalReprAux (fuel - 1) (n / 10) ++ [digitChar (n % 10)] := by
  cases fuel with
  | zero => omega
  | succ f => simp [decimalReprAux, Nat.not_lt.2 hn]

theorem decimalRepr_small {n : Nat} (hn : n < 10) : decimalRepr n = [digitChar n] :=
  decimalReprAux_small hn (by omega)

theorem decimalRepr_two {n : Nat} (h1 : 10 ≤ n) (h2 : n ≤ 99) :
    decimalRepr n = [digitChar (n / 10), digitChar (n % 10)] := by
  unfold decimalRepr
  rw [decimalReprAux_step h1 (by omega), decimalReprAux_small (by omega) (by omega)]
  rfl

theorem decimalRepr_four {n : Nat} (h1 : 1000 ≤ n) (h2 : n ≤ 9999) :
    decimalRepr n =
      [digitChar (n / 1000), digitChar (n / 100 % 10),
        digitChar (n / 10 % 10), digitChar (n % 10)] := by
  unfold decimalRepr
  rw [decimalReprAux_step (by omega) (by omega)]
  rw [decimalReprAux_step (by omega : 10 ≤ n / 10) (by omega)]
  rw [Nat.div_div_eq_div_mul]
  rw [decimalReprAux_step (by omega : 10 ≤ n / (10 * 10)) (by omega)]
  rw [Nat.div_div_eq_div_mul]
  rw [decimalReprAux_small (by omega : n / (10 * 10 * 10) < 10) (by omega)]
  have e1 : n / (10 * 10 * 10) = n / 1000 := by norm_num
  have e2 : n / (10 * 10) % 10 = n / 100 % 10 := by norm_num
  have e3 : n / 10 % 10 = n / 10 % 10 := rfl
  rw [e1, e2]
  rfl

theorem pad2_decimalRepr {n : Nat} (h : n ≤ 99) :
    pad2 (decimalRepr n) = [digitChar (n / 10), digitChar (n % 10)] := by
  rcases Nat.lt_or_ge n 10 with h10 | h10
  · rw [decimalRepr_small h10]
    have hd : n / 10 = 0 := by omega
    have hm : n % 10 = n := by omega
    rw [hd, hm]
    rfl
  · rw [decimalRepr_two h10 h]
    rfl

/-! ### Parsing the canonical template -/

theorem parse_mkCanonical {y mm dd : Nat} (hy1 : 1000 ≤ y) (hy2 : y ≤ 9999)
    (hmm : mm ≤ 99) (hdd : dd ≤ 99) :
    Ymd.parse (mkCanonical y mm dd) =
      if 1 ≤ mm ∧ mm ≤ 12 ∧ 1 ≤ dd ∧ dd ≤ daysInMonth (y : Int) (mm - 1) then
        .ok ⟨y, mm - 1, dd⟩
      else .error .invalidDateError := by
  unfold mkCanonical
  rw [decimalRepr_four hy1 hy2, pad2_decimalRepr hmm, pad2_decimalRepr hdd]
  simp only [List.cons_append, List.nil_append]
  simp only [Ymd.parse]
  rw [digitChar_isDigit (by omega : y / 1000 ≤ 9),
    digitChar_isDigit (by omega : y / 100 % 10 ≤ 9),
    digitChar_isDigit (by omega : y / 10 % 10 ≤ 9),
    digitChar_isDigit (by omega : y % 10 ≤ 9),
    digitChar_isDigit (by omega : mm / 10 ≤ 9),
    digitChar_isDigit (by omega : mm % 10 ≤ 9),
    digitChar_isDigit (by omega : dd / 10 ≤ 9),
    digitChar_isDigit (by omega : dd % 10 ≤ 9)]
  simp only [beq_self_eq_true, Bool.and_self, Bool.and_true, Bool.true_and, if_true]
  rw [digitVal_digitChar (by omega : y / 1000 ≤ 9),
    digitVal_digitChar (by omega : y / 100 % 10 ≤ 9),
    digitVal_digitChar (by omega : y / 10 % 10 ≤ 9),
    digitVal_digitChar (by omega : y % 10 ≤ 9),
    digitVal_digitChar (by omega : mm / 10 ≤ 9),
    digitVal_digitChar (by omega : mm % 10 ≤ 9),
    digitVal_digitChar (by omega : dd / 10 ≤ 9),
    digitVal_digitChar (by omega : dd % 10 ≤ 9)]
  have ey : 1000 * (y / 1000) + 100 * (y / 100 % 10) + 10 * (y / 10 % 10) + y % 10 = y := by
    omega
  have em : 10 * (mm / 10) + mm % 10 = mm := by omega
  have ed : 10 * (dd / 10) + dd % 10 = dd := by omega
  rw [ey, em, ed]

/-! ### Full characterization of the constructor on arbitrary strings -/

theorem parse_spec (s : String) :
    (shapeOk s.data = false → Ymd.parse s = .error .formatError) ∧
    (shapeOk s.data = true → Ymd.parse s =
      if RealFields s.data then
        .ok ⟨yearOf s.data, monthFieldOf s.data - 1, dayFieldOf s.data⟩
      else .error .invalidDateError) := by
  obtain ⟨l⟩ := s
  rcases l with _ | ⟨c0, _ | ⟨c1, _ | ⟨c2, _ | ⟨c3, _ | ⟨c4, _ | ⟨c5, _ | ⟨c6, _ | ⟨c7, _ | ⟨c8, _ | ⟨c9, _ | ⟨c10, rest⟩⟩⟩⟩⟩⟩⟩⟩⟩⟩⟩
  case cons.cons.cons.cons.cons.cons.cons.cons.cons.cons.nil =>
    exact ⟨fun h => if_neg (fun hc => Bool.noConfusion (hc.symm.trans h)),
      fun h => if_pos h⟩
  all_goals
    exact ⟨fun _ => rfl, fun h => (Bool.false_ne_true h).elim⟩

theorem parse_ok_cases {s : String} {x : Ymd} (h : Ymd.parse s = .ok x) :
    shapeOk s.data = true ∧ RealFields s.data ∧
      x = ⟨yearOf s.data, monthFieldOf s.data - 1, dayFieldOf s.data⟩ := by
  obtain ⟨h1, h2⟩ := parse_spec s
  cases hs : shapeOk s.data with
  | false => rw [h1 hs] at h; exact absurd h (by simp)
  | true =>
    rw [h2 hs] at h
    by_cases hr : RealFields s.data
    · rw [if_pos hr] at h
      exact ⟨rfl, hr, (Except.ok.inj h).symm⟩
    · rw [if_neg hr] at h; exact absurd h (by simp)

theorem parse_ok_valid {s : String} {x : Ymd} (h : Ymd.parse s = .ok x) : x.Valid := by
  obtain ⟨hs, hr, rfl⟩ := parse_ok_cases h
  simp only [shapeOk, Bool.and_eq_true, beq_iff_eq] at hs
  obtain ⟨⟨⟨⟨⟨⟨⟨⟨⟨⟨-, hd0⟩, hd1⟩, hd2⟩, hd3⟩, -⟩, hd5⟩, hd6⟩, -⟩, hd8⟩, hd9⟩ := hs
  obtain ⟨hm1, hm2, hdd1, hdd2⟩ := hr
  have e0 := digitVal_le_of_isDigit hd0
  have e1 := digitVal_le_of_isDigit hd1
  have e2 := digitVal_le_of_isDigit hd2
  have e3 := digitVal_le_of_isDigit hd3
  refine ⟨?_, ?_, ?_, ?_⟩
  · show yearOf s.data ≤ 9999
    unfold yearOf
    omega
  · show monthFieldOf s.data - 1 ≤ 11
    omega
  · show 1 ≤ dayFieldOf s.data
    omega
  · exact hdd2

/-! ### Civil-calendar day-number lemmas -/

theorem daysInMonth_pos (y : Int) (m : Nat) : 1 ≤ daysInMonth y m := by
  unfold daysInMonth; split_ifs <;> omega

theorem daysInMonth_le_31 (y : Int) (m : Nat) : daysInMonth y m ≤ 31 := by
  unfold daysInMonth; split_ifs <;> omega

theorem isLeap_iff (y : Int) : isLeap y = true ↔ ((y % 4 = 0 ∧ ¬ y % 100 = 0) ∨ y % 400 = 0) := by
  unfold isLeap
  simp [Bool.or_eq_true, Bool.and_eq_true, beq_iff_eq]

theorem daysInMonth_feb (y : Int) : daysInMonth y 1 = 28 + (if isLeap y then 1 else 0) := by
  unfold daysInMonth
  split_ifs <;> omega

theorem daysBeforeSYear_succ (z : Int) :
    daysBeforeSYear (z + 1) = daysBeforeSYear z + 365 + (if isLeap (z + 1) then 1 else 0) := by
  have h4 : (z + 1) / 4 = z / 4 + (if (z + 1) % 4 = 0 then 1 else 0) := by split_ifs <;> omega
  have h100 : (z + 1) / 100 = z / 100 + (if (z + 1) % 100 = 0 then 1 else 0) := by
    split_ifs <;> omega
  have h400 : (z + 1) / 400 = z / 400 + (if (z + 1) % 400 = 0 then 1 else 0) := by
    split_ifs <;> omega
  unfold daysBeforeSYear
  rw [h4, h100, h400]
  by_cases c4 : (z + 1) % 4 = 0 <;> by_cases c100 : (z + 1) % 100 = 0 <;>
    by_cases c400 : (z + 1) % 400 = 0 <;>
    simp [isLeap_iff, c4, c100, c400] <;> omega

theorem dayNumber_succCivil {c : CivilDate} (h : c.Valid) :
    dayNumber (succCivil c) = dayNumber c + 1 := by
  obtain ⟨y, m, d⟩ := c
  simp only [CivilDate.Valid] at h
  obtain ⟨hm, hd1, hd2⟩ := h
  unfold succCivil
  dsimp only
  split_ifs with h1 h2
  · simp only [dayNumber, sYear, sMonth]
    push_cast
    split_ifs <;> ring
  · have hde : d = daysInMonth y m := by omega
    subst hde
    clear hd1 hd2 h1
    interval_cases m <;>
      simp only [dayNumber, sYear, sMonth, daysInMonth] <;> norm_num [monthOffset]
    all_goals try omega
    have hstep := daysBeforeSYear_succ (y - 1)
    have hy : y - 1 + 1 = y := by ring
    rw [hy] at hstep
    split_ifs at hstep ⊢ <;> omega
  · have hm11 : m = 11 := by omega
    subst hm11
    have hde : d = 31 := by
      simp only [daysInMonth] at hd2 h1
      norm_num at hd2 h1
      omega
    subst hde
    simp only [dayNumber, sYear, sMonth]
    norm_num [monthOffset]
    ring

theorem valid_succCivil {c : CivilDate} (h : c.Valid) : (succCivil c).Valid := by
  obtain ⟨y, m, d⟩ := c
  simp only [CivilDate.Valid] at h
  obtain ⟨hm, hd1, hd2⟩ := h
  unfold succCivil
  dsimp only
  split_ifs with h1 h2
  · exact ⟨hm, by show 1 ≤ d + 1; omega, by show d + 1 ≤ daysInMonth y m; omega⟩
  · exact ⟨by show m + 1 ≤ 11; omega, le_refl 1,
      by show 1 ≤ daysInMonth y (m + 1); exact daysInMonth_pos y (m + 1)⟩
  · exact ⟨by show (0 : Nat) ≤ 11; omega, le_refl 1,
      by show 1 ≤ daysInMonth (y + 1) 0; exact daysInMonth_pos (y + 1) 0⟩

theorem dayNumber_predCivil {c : CivilDate} (h : c.Valid) :
    dayNumber (predCivil c) = dayNumber c - 1 := by
  obtain ⟨y, m, d⟩ := c
  simp only [CivilDate.Valid] at h
  obtain ⟨hm, hd1, hd2⟩ := h
  unfold predCivil
  dsimp only
  split_ifs with h1 h2
  · simp only [dayNumber, sYear, sMonth]
    split_ifs <;> omega
  · subst h2
    have hde : d = 1 := by omega
    subst hde
    simp only [dayNumber, sYear, sMonth]
    norm_num [monthOffset]
    ring
  · have hde : d = 1 := by omega
    subst hde
    have hm1 : 1 ≤ m := by omega
    clear hd1 hd2 h1
    interval_cases m <;>
      simp only [dayNumber, sYear, sMonth, daysInMonth] <;> norm_num [monthOffset]
    all_goals try omega
    have hstep := daysBeforeSYear_succ (y - 1)
    have hy : y - 1 + 1 = y := by ring
    rw [hy] at hstep
    split_ifs at hstep ⊢ <;> omega

theorem valid_predCivil {c : CivilDate} (h : c.Valid) : (predCivil c).Valid := by
  obtain ⟨y, m, d⟩ := c
  simp only [CivilDate.Valid] at h
  obtain ⟨hm, hd1, hd2⟩ := h
  unfold predCivil
  dsimp only
  split_ifs with h1 h2
  · exact ⟨hm, by show 1 ≤ d - 1; omega, by show d - 1 ≤ daysInMonth y m; omega⟩
  · refine ⟨by show (11 : Nat) ≤ 11; omega, by show 1 ≤ 31; omega, ?_⟩
    show 31 ≤ daysInMonth (y - 1) 11
    norm_num [daysInMonth]
  · exact ⟨by show m - 1 ≤ 11; omega, by show 1 ≤ daysInMonth y (m - 1); exact daysInMonth_pos y (m - 1),
      le_refl _⟩

theorem iterate_succCivil {c : CivilDate} (h : c.Valid) (n : Nat) :
    (succCivil^[n] c).Valid ∧ dayNumber (succCivil^[n] c) = dayNumber c + n := by
  induction n with
  | zero => simpa using h
  | succ k ih =>
    obtain ⟨hv, hd⟩ := ih
    rw [Function.iterate_succ_apply']
    refine ⟨valid_succCivil hv, ?_⟩
    rw [dayNumber_succCivil hv, hd]
    push_cast
    ring

theorem iterate_predCivil {c : CivilDate} (h : c.Valid) (n : Nat) :
    (predCivil^[n] c).Valid ∧ dayNumber (predCivil^[n] c) = dayNumber c - n := by
  induction n with
  | zero => simpa using h
  | succ k ih =>
    obtain ⟨hv, hd⟩ := ih
    rw [Function.iterate_succ_apply']
    refine ⟨valid_predCivil hv, ?_⟩
    rw [dayNumber_predCivil hv, hd]
    push_cast
    ring

theorem addDaysCivil_valid {c : CivilDate} (h : c.Valid) (n : Int) :
    (addDaysCivil c n).Valid := by
  unfold addDaysCivil
  split_ifs with h0
  · exact (iterate_succCivil h n.toNat).1
  · exact (iterate_predCivil h (-n).toNat).1

theorem addDaysCivil_dayNumber {c : CivilDate} (h : c.Valid) (n : Int) :
    dayNumber (addDaysCivil c n) = dayNumber c + n := by
  unfold addDaysCivil
  split_ifs with h0
  · rw [(iterate_succCivil h n.toNat).2]
    congr 1
    omega
  · rw [(iterate_predCivil h (-n).toNat).2]
    omega

theorem addDaysCivil_zero (c : CivilDate) : addDaysCivil c 0 = c := by
  unfold addDaysCivil
  norm_num

theorem monthOffset_mono {a b : Nat} (h : a ≤ b) : monthOffset a ≤ monthOffset b := by
  unfold monthOffset
  exact Nat.div_le_div_right (by omega)

theorem daysBeforeSYear_add (a : Int) (k : Nat) :
    daysBeforeSYear a + 365 * k ≤ daysBeforeSYear (a + k) := by
  induction k with
  | zero => simp
  | succ j ih =>
    have hstep := daysBeforeSYear_succ (a + j)
    have he : (a + ((j : Int) + 1)) = (a + j) + 1 := by ring
    push_cast
    push_cast at ih
    rw [he, hstep]
    split_ifs <;> omega

theorem daysBeforeSYear_mono {a b : Int} (h : a ≤ b) :
    daysBeforeSYear a ≤ daysBeforeSYear b := by
  have hk := daysBeforeSYear_add a (b - a).toNat
  have he : a + ((b - a).toNat : Int) = b := by omega
  rw [he] at hk
  omega

theorem daysBeforeSYear_lt {a b : Int} (h : a < b) :
    daysBeforeSYear a + 365 ≤ daysBeforeSYear b := by
  have hk := daysBeforeSYear_add a (b - a).toNat
  have he : a + ((b - a).toNat : Int) = b := by omega
  rw [he] at hk
  have : (1 : Int) ≤ ((b - a).toNat : Int) := by omega
  nlinarith

theorem sMonth_le_11 {c : CivilDate} (h : c.month ≤ 11) : sMonth c ≤ 11 := by
  unfold sMonth
  split_ifs <;> omega

theorem monthOffset_nonneg (sm : Nat) : (0 : Int) ≤ (monthOffset sm : Int) := by
  positivity

theorem dayNumber_bounds {c : CivilDate} (h : c.Valid) :
    daysBeforeSYear (sYear c) ≤ dayNumber c ∧
      dayNumber c + 1 ≤ daysBeforeSYear (sYear c + 1) := by
  obtain ⟨y, m, d⟩ := c
  simp only [CivilDate.Valid] at h
  obtain ⟨hm, hd1, hd2⟩ := h
  constructor
  · have := monthOffset_nonneg (sMonth ⟨y, m, d⟩)
    unfold dayNumber
    dsimp only
    omega
  · by_cases hfeb : m = 1
    · subst hfeb
      rw [daysInMonth_feb] at hd2
      unfold dayNumber sYear sMonth
      dsimp only
      norm_num [monthOffset]
      have hstep := daysBeforeSYear_succ (y - 1)
      have hy2 : y - 1 + 1 = y := by ring
      rw [hy2] at hstep
      split_ifs at hstep hd2 <;> omega
    · have h31 : d ≤ 31 := le_trans hd2 (daysInMonth_le_31 y m)
      have hsm : sMonth ⟨y, m, d⟩ ≤ 10 := by
        unfold sMonth
        dsimp only
        split_ifs <;> omega
      have hoff : monthOffset (sMonth ⟨y, m, d⟩) ≤ 306 := by
        calc monthOffset (sMonth ⟨y, m, d⟩) ≤ monthOffset 10 := monthOffset_mono hsm
        _ = 306 := by norm_num [monthOffset]
      have hstep := daysBeforeSYear_succ (sYear ⟨y, m, d⟩)
      unfold dayNumber
      dsimp only
      split_ifs at hstep <;> omega

theorem lex_shift {c₁ c₂ : CivilDate} (h₁ : c₁.month ≤ 11) (h₂ : c₂.month ≤ 11) :
    lexLtCivil c₁ c₂ ↔
      (sYear c₁ < sYear c₂ ∨ (sYear c₁ = sYear c₂ ∧ (sMonth c₁ < sMonth c₂ ∨
        (sMonth c₁ = sMonth c₂ ∧ c₁.day < c₂.day)))) := by
  obtain ⟨y₁, m₁, d₁⟩ := c₁
  obtain ⟨y₂, m₂, d₂⟩ := c₂
  simp only [lexLtCivil, sYear, sMonth] at *
  split_ifs <;> omega

theorem day_le_offset_gap {c : CivilDate} (h : c.Valid) (hsm : sMonth c ≤ 10) :
    (c.day : Int) ≤ (monthOffset (sMonth c + 1) : Int) - (monthOffset (sMonth c) : Int) := by
  obtain ⟨y, m, d⟩ := c
  simp only [CivilDate.Valid] at h
  obtain ⟨hm, hd1, hd2⟩ := h
  by_cases hfeb : m = 1
  · subst hfeb
    simp [sMonth] at hsm
  · interval_cases m <;>
      simp only [sMonth, daysInMonth] at hd2 ⊢ <;>
      norm_num [monthOffset] at hd2 ⊢ <;> omega

theorem dayNumber_lt_of_lexLt {c₁ c₂ : CivilDate} (h₁ : c₁.Valid) (h₂ : c₂.Valid)
    (hlt : lexLtCivil c₁ c₂) : dayNumber c₁ < dayNumber c₂ := by
  rw [lex_shift h₁.1 h₂.1] at hlt
  rcases hlt with hy | ⟨hy, hm | ⟨hm, hd⟩⟩
  · have b₁ := (dayNumber_bounds h₁).2
    have b₂ := (dayNumber_bounds h₂).1
    have hmono := daysBeforeSYear_mono (show sYear c₁ + 1 ≤ sYear c₂ by omega)
    omega
  · have hs2 := sMonth_le_11 h₂.1
    have hsm1 : sMonth c₁ ≤ 10 := by omega
    have hgap := day_le_offset_gap h₁ hsm1
    have hmono : monthOffset (sMonth c₁ + 1) ≤ monthOffset (sMonth c₂) := monthOffset_mono (by omega)
    have hd2 := h₂.2.1
    unfold dayNumber
    rw [hy]
    omega
  · unfold dayNumber
    rw [hy, hm]
    have := h₁.2.1
    have := h₂.2.1
    omega

theorem civil_ext {c₁ c₂ : CivilDate} (hy : c₁.year = c₂.year) (hm : c₁.month = c₂.month)
    (hd : c₁.day = c₂.day) : c₁ = c₂ := by
  obtain ⟨y₁, m₁, d₁⟩ := c₁
  obtain ⟨y₂, m₂, d₂⟩ := c₂
  simp only at hy hm hd
  subst hy; subst hm; subst hd
  rfl

theorem dayNumber_inj {c₁ c₂ : CivilDate} (h₁ : c₁.Valid) (h₂ : c₂.Valid)
    (he : dayNumber c₁ = dayNumber c₂) : c₁ = c₂ := by
  by_cases hy : c₁.year = c₂.year
  · by_cases hm : c₁.month = c₂.month
    · by_cases hd : c₁.day = c₂.day
      · exact civil_ext hy hm hd
      · rcases Nat.lt_or_ge c₁.day c₂.day with hlt | hge
        · have := dayNumber_lt_of_lexLt h₁ h₂ (Or.inr ⟨hy, Or.inr ⟨hm, hlt⟩⟩)
          omega
        · have := dayNumber_lt_of_lexLt h₂ h₁ (Or.inr ⟨hy.symm, Or.inr ⟨hm.symm, by omega⟩⟩)
          omega
    · rcases Nat.lt_or_ge c₁.month c₂.month with hlt | hge
      · have := dayNumber_lt_of_lexLt h₁ h₂ (Or.inr ⟨hy, Or.inl hlt⟩)
        omega
      · have := dayNumber_lt_of_lexLt h₂ h₁ (Or.inr ⟨hy.symm, Or.inl (by omega)⟩)
        omega
  · rcases Int.lt_or_lt_of_ne hy with hlt | hlt
    · have := dayNumber_lt_of_lexLt h₁ h₂ (Or.inl hlt)
      omega
    · have := dayNumber_lt_of_lexLt h₂ h₁ (Or.inl hlt)
      omega

theorem lex_trichotomy (c₁ c₂ : CivilDate) :
    lexLtCivil c₁ c₂ ∨ c₁ = c₂ ∨ lexLtCivil c₂ c₁ := by
  obtain ⟨y₁, m₁, d₁⟩ := c₁
  obtain ⟨y₂, m₂, d₂⟩ := c₂
  simp only [lexLtCivil, CivilDate.mk.injEq]
  omega

theorem lexLt_iff_dayNumber {c₁ c₂ : CivilDate} (h₁ : c₁.Valid) (h₂ : c₂.Valid) :
    lexLtCivil c₁ c₂ ↔ dayNumber c₁ < dayNumber c₂ := by
  constructor
  · exact dayNumber_lt_of_lexLt h₁ h₂
  · intro h
    rcases lex_trichotomy c₁ c₂ with hlt | he | hgt
    · exact hlt
    · subst he; omega
    · have := dayNumber_lt_of_lexLt h₂ h₁ hgt
      omega

theorem year_mono_of_dayNumber {c₁ c₂ : CivilDate} (h₁ : c₁.Valid) (h₂ : c₂.Valid)
    (h : dayNumber c₁ ≤ dayNumber c₂) : c₁.year ≤ c₂.year := by
  by_contra hc
  have : lexLtCivil c₂ c₁ := Or.inl (by omega)
  have := dayNumber_lt_of_lexLt h₂ h₁ this
  omega

theorem addDaysCivil_cancel {c₁ c₂ : CivilDate} (h₁ : c₁.Valid) (h₂ : c₂.Valid) :
    addDaysCivil c₁ (dayNumber c₂ - dayNumber c₁) = c₂ :=
  dayNumber_inj (addDaysCivil_valid h₁ _) h₂
    (by rw [addDaysCivil_dayNumber h₁]; ring)

theorem addDaysCivil_comp {c : CivilDate} (h : c.Valid) (a b : Int) :
    addDaysCivil (addDaysCivil c a) b = addDaysCivil c (a + b) :=
  dayNumber_inj (addDaysCivil_valid (addDaysCivil_valid h a) b) (addDaysCivil_valid h (a + b))
    (by rw [addDaysCivil_dayNumber (addDaysCivil_valid h a),
          addDaysCivil_dayNumber h, addDaysCivil_dayNumber h]; ring)

/-! ### Bridging `Ymd` and `CivilDate` -/

theorem civilOfYmd_valid {x : Ymd} (h : x.Valid) : (civilOfYmd x).Valid :=
  ⟨h.2.1, h.2.2.1, h.2.2.2⟩

theorem toYmd_civilOfYmd (x : Ymd) : toYmd (civilOfYmd x) = x := by
  obtain ⟨y, m, d⟩ := x
  simp [toYmd, civilOfYmd]

theorem civilOfYmd_toYmd {c : CivilDate} (h : 0 ≤ c.year) : civilOfYmd (toYmd c) = c := by
  obtain ⟨y, m, d⟩ := c
  simp only [toYmd, civilOfYmd]
  congr 1
  exact Int.toNat_of_nonneg h

theorem toYmd_valid {c : CivilDate} (h : c.Valid) (h1 : 0 ≤ c.year) (h2 : c.year ≤ 9999) :
    (toYmd c).Valid := by
  obtain ⟨hm, hd1, hd2⟩ := h
  refine ⟨by show c.year.toNat ≤ 9999; omega, hm, hd1, ?_⟩
  show c.day ≤ daysInMonth ((c.year.toNat : Nat) : Int) c.month
  rw [Int.toNat_of_nonneg h1]
  exact hd2

theorem asDateAtLocal_valid {x : Ymd} (h : x.Valid) : x.asDateAtLocal.Valid := by
  unfold Ymd.asDateAtLocal
  exact addDaysCivil_valid ⟨h.2.1, le_refl 1, daysInMonth_pos _ _⟩ _

theorem asDateAtLocal_eq {x : Ymd} (h : x.Valid) (hy : 100 ≤ x.year) :
    x.asDateAtLocal = civilOfYmd x := by
  unfold Ymd.asDateAtLocal mapYear
  rw [if_neg (by omega)]
  have hfv : CivilDate.Valid ⟨(x.year : Int), x.monthZeroIndexed, 1⟩ :=
    ⟨h.2.1, le_refl 1, daysInMonth_pos _ _⟩
  apply dayNumber_inj (addDaysCivil_valid hfv _) (civilOfYmd_valid h)
  rw [addDaysCivil_dayNumber hfv]
  have hd1 := h.2.2.1
  unfold dayNumber sYear sMonth civilOfYmd
  dsimp only
  split_ifs <;> omega

theorem dayNumberL_eq {x : Ymd} (h : x.Valid) (hy : 100 ≤ x.year) :
    dayNumberL x = dayNumber (civilOfYmd x) := by
  rw [dayNumberL, asDateAtLocal_eq h hy]

/-! ### Re-extraction through the canonical string -/

theorem intRepr_nonneg {n : Int} (h : 0 ≤ n) : intRepr n = decimalRepr n.toNat := by
  unfold intRepr
  rw [if_neg (by omega)]

theorem mkCanonicalI_eq {y mm dd : Int} (hy : 0 ≤ y) (hm : 0 ≤ mm) (hd : 0 ≤ dd) :
    mkCanonicalI y mm dd = mkCanonical y.toNat mm.toNat dd.toNat := by
  unfold mkCanonicalI mkCanonical
  rw [intRepr_nonneg hy, intRepr_nonneg hm, intRepr_nonneg hd]

theorem fromDateAtLocal_ok {c : CivilDate} (h : c.Valid) (h1 : 1000 ≤ c.year)
    (h2 : c.year ≤ 9999) : fromDateAtLocal c = .ok (toYmd c) := by
  obtain ⟨hm, hdd1, hdd2⟩ := h
  have h31 := daysInMonth_le_31 c.year c.month
  unfold fromDateAtLocal
  rw [mkCanonicalI_eq (by omega) (by omega) (by omega)]
  have hmt : ((c.month : Int) + 1).toNat = c.month + 1 := by omega
  have hdt : ((c.day : Int)).toNat = c.day := by omega
  rw [hmt, hdt]
  rw [parse_mkCanonical (by omega) (by omega) (by omega) (by omega)]
  rw [if_pos]
  · show Except.ok ⟨c.year.toNat, c.month + 1 - 1, c.day⟩ = Except.ok (toYmd c)
    simp [toYmd]
  · refine ⟨by omega, by omega, hdd1, ?_⟩
    show c.day ≤ daysInMonth ((c.year.toNat : Nat) : Int) (c.month + 1 - 1)
    rw [Int.toNat_of_nonneg (by omega : (0 : Int) ≤ c.year)]
    simpa using hdd2

theorem addDays_ok {x : Ymd} (h : x.Valid) (hy : 100 ≤ x.year) (n : Int)
    (h1 : 1000 ≤ (addDaysCivil (civilOfYmd x) n).year)
    (h2 : (addDaysCivil (civilOfYmd x) n).year ≤ 9999) :
    x.addDays n = .ok (toYmd (addDaysCivil (civilOfYmd x) n)) := by
  unfold Ymd.addDays
  rw [asDateAtLocal_eq h hy]
  exact fromDateAtLocal_ok (addDaysCivil_valid (civilOfYmd_valid h) n) h1 h2

theorem addMonthsCivil_spec {c : CivilDate} (h : c.Valid) (n : Int) :
    (addMonthsCivil c n).Valid ∧
      (addMonthsCivil c n).year = (c.year * 12 + (c.month : Int) + n) / 12 ∧
      ((addMonthsCivil c n).month : Int) = (c.year * 12 + (c.month : Int) + n) % 12 ∧
      (addMonthsCivil c n).day =
        min c.day (daysInMonth (addMonthsCivil c n).year (addMonthsCivil c n).month) := by
  obtain ⟨hm, hd1, hd2⟩ := h
  unfold addMonthsCivil
  dsimp only
  constructor
  · refine ⟨by show ((c.year * 12 + (c.month : Int) + n) % 12).toNat ≤ 11; omega, ?_, min_le_right _ _⟩
    exact Nat.le_min.mpr ⟨hd1, daysInMonth_pos _ _⟩
  · refine ⟨rfl, ?_, rfl⟩
    show (((c.year * 12 + (c.month : Int) + n) % 12).toNat : Int) =
      (c.year * 12 + (c.month : Int) + n) % 12
    omega

theorem addMonths_ok {x : Ymd} (h : x.Valid) (hy : 100 ≤ x.year) (n : Int)
    (h1 : 1000 ≤ (addMonthsCivil (civilOfYmd x) n).year)
    (h2 : (addMonthsCivil (civilOfYmd x) n).year ≤ 9999) :
    x.addMonths n = .ok (toYmd (addMonthsCivil (civilOfYmd x) n)) := by
  unfold Ymd.addMonths
  rw [asDateAtLocal_eq h hy]
  exact fromDateAtLocal_ok ((addMonthsCivil_spec (civilOfYmd_valid h) n).1) h1 h2

theorem getDayCivil_cast (c : CivilDate) :
    (getDayCivil c : Int) = (dayNumber c + 3) % 7 := by
  unfold getDayCivil
  omega

theorem getDayCivil_le_6 (c : CivilDate) : getDayCivil c ≤ 6 := by
  unfold getDayCivil
  omega

theorem previousDayCivil_spec {c : CivilDate} (h : c.Valid) {t : Nat} (ht : t ≤ 6) :
    (previousDayCivil c t).Valid ∧
      dayNumber c - 7 ≤ dayNumber (previousDayCivil c t) ∧
      dayNumber (previousDayCivil c t) < dayNumber c ∧
      getDayCivil (previousDayCivil c t) = t := by
  have hg := getDayCivil_cast c
  unfold previousDayCivil
  dsimp only
  refine ⟨addDaysCivil_valid h _, ?_, ?_, ?_⟩
  · rw [addDaysCivil_dayNumber h]
    split_ifs <;> omega
  · rw [addDaysCivil_dayNumber h]
    split_ifs <;> omega
  · unfold getDayCivil
    rw [addDaysCivil_dayNumber h]
    split_ifs <;> omega

theorem nextDayCivil_spec {c : CivilDate} (h : c.Valid) {t : Nat} (ht : t ≤ 6) :
    (nextDayCivil c t).Valid ∧
      dayNumber (nextDayCivil c t) ≤ dayNumber c + 7 ∧
      dayNumber c < dayNumber (nextDayCivil c t) ∧
      getDayCivil (nextDayCivil c t) = t := by
  have hg := getDayCivil_cast c
  unfold nextDayCivil
  dsimp only
  refine ⟨addDaysCivil_valid h _, ?_, ?_, ?_⟩
  · rw [addDaysCivil_dayNumber h]
    split_ifs <;> omega
  · rw [addDaysCivil_dayNumber h]
    split_ifs <;> omega
  · unfold getDayCivil
    rw [addDaysCivil_dayNumber h]
    split_ifs <;> omega

/-! ### Comparison and serialization bridges -/

theorem lte_iff {a b : Ymd} : a.lte b = true ↔ dayNumberL a ≤ dayNumberL b := by
  unfold Ymd.lte
  simp

theorem gt_iff {a b : Ymd} : a.gt b = true ↔ dayNumberL b < dayNumberL a := by
  unfold Ymd.gt
  simp

theorem lt_iff {a b : Ymd} : a.lt b = true ↔ dayNumberL a < dayNumberL b := by
  unfold Ymd.lt
  simp

theorem digitChar_inj {a b : Nat} (ha : a ≤ 9) (hb : b ≤ 9) (h : digitChar a = digitChar b) :
    a = b := by
  have := digitVal_digitChar ha
  have := digitVal_digitChar hb
  rw [← digitVal_digitChar ha, ← digitVal_digitChar hb, h]

theorem value_inj {a b : Ymd} (ha : a.Valid) (hb : b.Valid) (hya : 1000 ≤ a.year)
    (hyb : 1000 ≤ b.year) (h : a.value = b.value) : a = b := by
  obtain ⟨ha9, ham, had1, had2⟩ := ha
  obtain ⟨hb9, hbm, hbd1, hbd2⟩ := hb
  have ha31 := daysInMonth_le_31 (a.year : Int) a.monthZeroIndexed
  have hb31 := daysInMonth_le_31 (b.year : Int) b.monthZeroIndexed
  unfold Ymd.value mkCanonical at h
  rw [decimalRepr_four hya ha9, decimalRepr_four hyb hb9,
    pad2_decimalRepr (show a.monthZeroIndexed + 1 ≤ 99 by omega),
    pad2_decimalRepr (show b.monthZeroIndexed + 1 ≤ 99 by omega),
    pad2_decimalRepr (show a.dayOfMonth ≤ 99 by omega),
    pad2_decimalRepr (show b.dayOfMonth ≤ 99 by omega)] at h
  have h2 := congrArg String.data h
  clear h
  simp only [List.cons_append, List.nil_append, List.cons.injEq, and_true, true_and] at h2
  obtain ⟨e1, e2, e3, e4, e5, e6, e7, e8⟩ := h2
  have g1 := digitChar_inj (by omega) (by omega) e1
  have g2 := digitChar_inj (by omega) (by omega) e2
  have g3 := digitChar_inj (by omega) (by omega) e3
  have g4 := digitChar_inj (by omega) (by omega) e4
  have g5 := digitChar_inj (by omega) (by omega) e5
  have g6 := digitChar_inj (by omega) (by omega) e6
  have g7 := digitChar_inj (by omega) (by omega) e7
  have g8 := digitChar_inj (by omega) (by omega) e8
  obtain ⟨ya, ma, da⟩ := a
  obtain ⟨yb, mb, db⟩ := b
  simp only at g1 g2 g3 g4 g5 g6 g7 g8 hya hyb ha9 hb9
  congr 1
  · omega
  · omega
  · omega

theorem eq_iff {a b : Ymd} (ha : a.Valid) (hb : b.Valid) (hya : 1000 ≤ a.year)
    (hyb : 1000 ≤ b.year) : a.eq b = true ↔ a = b := by
  unfold Ymd.eq
  simp only [beq_iff_eq]
  exact ⟨value_inj ha hb hya hyb, fun h => by rw [h]⟩

/-! ### The enumeration loop -/

theorem rangeList_zero (c : CivilDate) : rangeList c 0 = [] := rfl

theorem rangeList_succ (c : CivilDate) (n : Nat) :
    rangeList c (n + 1) = toYmd c :: rangeList (addDaysCivil c 1) n := by
  unfold rangeList
  rw [List.range_succ_eq_map]
  simp only [List.map_cons, List.map_map, Nat.cast_zero, addDaysCivil_zero]
  congr 1


theorem rangeList_length (c : CivilDate) (n : Nat) : (rangeList c n).length = n := by
  simp [rangeList]

theorem rangeList_getElem (c : CivilDate) (n : Nat) (i : Nat) (hi : i < n) :
    (rangeList c n).get ⟨i, by rw [rangeList_length]; exact hi⟩ = toYmd (addDaysCivil c i) := by
  simp [rangeList]

theorem rangeList_mem {c : CivilDate} {n : Nat} {x : Ymd} :
    x ∈ rangeList c n ↔ ∃ i, i < n ∧ x = toYmd (addDaysCivil c (i : Int)) := by
  simp only [rangeList, List.mem_map, List.mem_range]
  constructor
  · rintro ⟨i, hi, rfl⟩
    exact ⟨i, hi, rfl⟩
  · rintro ⟨i, hi, rfl⟩
    exact ⟨i, hi, rfl⟩

theorem maxCivil_valid : CivilDate.Valid ⟨9999, 11, 31⟩ := by decide

theorem dayArrayAux_ok :
    ∀ (fuel : Nat) (t curr : Ymd), curr.Valid → t.Valid →
      1000 ≤ curr.year → 1000 ≤ t.year →
      (fuel : Int) = dayNumberL t + 1 - dayNumberL curr →
      dayNumberL t < dayNumber ⟨9999, 11, 31⟩ →
      Ymd.dayArrayAux fuel t curr = .ok (rangeList (civilOfYmd curr) fuel) := by
  intro fuel
  induction fuel with
  | zero => intro t curr _ _ _ _ _ _; rfl
  | succ f ih =>
    intro t curr hc ht hcy hty hf hmax
    have hccv : (civilOfYmd curr).Valid := civilOfYmd_valid hc
    have hdnc : dayNumberL curr = dayNumber (civilOfYmd curr) := dayNumberL_eq hc (by omega)
    have hdnt : dayNumberL t = dayNumber (civilOfYmd t) := dayNumberL_eq ht (by omega)
    have hlte : curr.lte t = true := lte_iff.mpr (by omega)
    have hnv : (addDaysCivil (civilOfYmd curr) 1).Valid := addDaysCivil_valid hccv 1
    have hnd : dayNumber (addDaysCivil (civilOfYmd curr) 1) = dayNumberL curr + 1 := by
      rw [addDaysCivil_dayNumber hccv, hdnc]
    have hy1 : 1000 ≤ (addDaysCivil (civilOfYmd curr) 1).year := by
      have := year_mono_of_dayNumber hccv hnv (by omega)
      have hcy' : (civilOfYmd curr).year = (curr.year : Int) := rfl
      omega
    have hy2 : (addDaysCivil (civilOfYmd curr) 1).year ≤ 9999 := by
      have := year_mono_of_dayNumber hnv maxCivil_valid (by omega)
      simpa using this
    have hadd : curr.addDays 1 = .ok (toYmd (addDaysCivil (civilOfYmd curr) 1)) :=
      addDays_ok hc (by omega) 1 hy1 hy2
    have hnvy : (toYmd (addDaysCivil (civilOfYmd curr) 1)).Valid :=
      toYmd_valid hnv (by omega) hy2
    have hnyy : 1000 ≤ (toYmd (addDaysCivil (civilOfYmd curr) 1)).year := by
      show 1000 ≤ (addDaysCivil (civilOfYmd curr) 1).year.toNat
      omega
    have hcivnext : civilOfYmd (toYmd (addDaysCivil (civilOfYmd curr) 1)) =
        addDaysCivil (civilOfYmd curr) 1 := civilOfYmd_toYmd (by omega)
    have hdnnext : dayNumberL (toYmd (addDaysCivil (civilOfYmd curr) 1)) = dayNumberL curr + 1 := by
      rw [dayNumberL_eq hnvy (by omega), hcivnext, hnd]
    have hrec := ih t (toYmd (addDaysCivil (civilOfYmd curr) 1)) hnvy ht hnyy hty
      (by omega) hmax
    simp only [Ymd.dayArrayAux, hlte, if_true, hadd, hrec, Except.map]
    rw [hcivnext] at hrec ⊢
    rw [rangeList_succ, toYmd_civilOfYmd]

theorem dayGenAux_eq_ok :
    ∀ (fuel : Nat) (t curr : Ymd) (l : List Ymd),
      Ymd.dayArrayAux fuel t curr = .ok l ↔ Ymd.dayGenAux fuel t curr = (l, none) := by
  intro fuel
  induction fuel with
  | zero =>
    intro t curr l
    simp only [Ymd.dayArrayAux, Ymd.dayGenAux, Except.ok.injEq, Prod.mk.injEq, and_true]
  | succ f ih =>
    intro t curr l
    simp only [Ymd.dayArrayAux, Ymd.dayGenAux]
    by_cases hc : curr.lte t = true
    · simp only [hc, if_true]
      rcases hA : curr.addDays 1 with e | next
      · simp
      · dsimp only
        rcases hp : Ymd.dayGenAux f t next with ⟨pl, pe⟩
        dsimp only
        cases pe with
        | none =>
          rw [(ih t next pl).mpr hp]
          simp [Except.map]
        | some e' =>
          rcases hA2 : Ymd.dayArrayAux f t next with e2 | l2
          · simp [Except.map]
          · exfalso
            have h2 := (ih t next l2).mp hA2
            rw [hp] at h2
            simp at h2
    · simp [hc]

theorem chunksOf7Aux_spec {α : Type} :
    ∀ (fuel : Nat) (l : List α), l.length ≤ fuel →
      ((7 ∣ l.length → ∀ w ∈ chunksOf7Aux fuel l, w.length = 7) ∧
        (chunksOf7Aux fuel l).flatten = l) := by
  intro fuel
  induction fuel with
  | zero =>
    intro l hl
    have : l = [] := List.eq_nil_of_length_eq_zero (by omega)
    subst this
    exact ⟨fun _ w hw => absurd hw (by simp [chunksOf7Aux]), by simp [chunksOf7Aux]⟩
  | succ f ih =>
    intro l hl
    by_cases he : l.isEmpty
    · have : l = [] := List.isEmpty_iff.mp he
      subst this
      exact ⟨fun _ w hw => absurd hw (by simp [chunksOf7Aux]), by simp [chunksOf7Aux]⟩
    · have hne : l ≠ [] := fun h => he (by simp [h])
      have hpos : 1 ≤ l.length := List.length_pos.mpr hne
      simp only [chunksOf7Aux, he, Bool.false_eq_true, if_false]
      have hdl : (l.drop 7).length = l.length - 7 := List.length_drop 7 l
      obtain ⟨ih1, ih2⟩ := ih (l.drop 7) (by omega)
      constructor
      · intro hdvd w hw
        have h7 : 7 ≤ l.length := by omega
        rcases List.mem_cons.mp hw with rfl | hw2
        · rw [List.length_take]
          omega
        · exact ih1 (by omega) w hw2
      · rw [List.flatten_cons, ih2]
        exact List.take_append_drop 7 l

theorem civil_mk_year (y : Int) (m d : Nat) : (CivilDate.mk y m d).year = y := rfl

theorem civil_mk_month (y : Int) (m d : Nat) : (CivilDate.mk y m d).month = m := rfl

theorem civil_mk_day (y : Int) (m d : Nat) : (CivilDate.mk y m d).day = d := rfl

theorem ymd_mk_year (y m d : Nat) : (Ymd.mk y m d).year = y := rfl

theorem ymd_valid_mk {y m d : Nat} (h1 : y ≤ 9999) (h2 : m ≤ 11) (h3 : 1 ≤ d)
    (h4 : d ≤ daysInMonth (y : Int) m) : (Ymd.mk y m d).Valid :=
  ⟨h1, h2, h3, h4⟩

theorem civil_valid_mk {y : Int} {m d : Nat} (h2 : m ≤ 11) (h3 : 1 ≤ d)
    (h4 : d ≤ daysInMonth y m) : (CivilDate.mk y m d).Valid :=
  ⟨h2, h3, h4⟩

theorem toYmd_mk (y : Int) (m d : Nat) : toYmd ⟨y, m, d⟩ = ⟨y.toNat, m, d⟩ := rfl

/-! ### Month boundaries and component construction -/

theorem build_ok_nat {y m d : Nat} (hy1 : 1000 ≤ y) (hy2 : y ≤ 9999) (hm : m ≤ 11)
    (hd1 : 1 ≤ d) (hd2 : d ≤ daysInMonth (y : Int) m) :
    Ymd.build (y : Int) (m : Int) (d : Int) = .ok ⟨y, m, d⟩ := by
  have h31 := daysInMonth_le_31 (y : Int) m
  unfold Ymd.build
  rw [mkCanonicalI_eq (by omega) (by omega) (by omega)]
  have e1 : ((y : Int)).toNat = y := by omega
  have e2 : ((m : Int) + 1).toNat = m + 1 := by omega
  have e3 : ((d : Int)).toNat = d := by omega
  rw [e1, e2, e3]
  rw [parse_mkCanonical hy1 hy2 (by omega) (by omega)]
  rw [if_pos ⟨by omega, by omega, hd1, by simpa using hd2⟩]
  simp

theorem startOfMonth_ok {x : Ymd} (h : x.Valid) (hy1 : 1000 ≤ x.year) :
    x.startOfMonth = .ok ⟨x.year, x.monthZeroIndexed, 1⟩ := by
  unfold Ymd.startOfMonth
  exact build_ok_nat hy1 h.1 h.2.1 (le_refl 1) (daysInMonth_pos _ _)

theorem addDaysCivil_neg_one (c : CivilDate) : addDaysCivil c (-1) = predCivil c := by
  unfold addDaysCivil
  norm_num

theorem endOfMonth_ok {x : Ymd} (h : x.Valid) (hy1 : 1000 ≤ x.year) (hy2 : x.year ≤ 9998) :
    x.endOfMonth = .ok ⟨x.year, x.monthZeroIndexed,
      daysInMonth (x.year : Int) x.monthZeroIndexed⟩ := by
  have hm := h.2.1
  unfold Ymd.endOfMonth
  rw [startOfMonth_ok h hy1]
  show (Ymd.mk x.year x.monthZeroIndexed 1).addMonths 1 >>= (fun t => t.addDays (-1)) = _
  have hsv : (Ymd.mk x.year x.monthZeroIndexed 1).Valid :=
    ymd_valid_mk (by omega) hm (le_refl 1) (daysInMonth_pos _ _)
  by_cases hdec : x.monthZeroIndexed ≤ 10
  · have hciv : addMonthsCivil (civilOfYmd (Ymd.mk x.year x.monthZeroIndexed 1)) 1 =
        ⟨(x.year : Int), x.monthZeroIndexed + 1, 1⟩ := by
      unfold addMonthsCivil civilOfYmd
      dsimp only
      have hdiv : ((x.year : Int) * 12 + (x.monthZeroIndexed : Int) + 1) / 12 = (x.year : Int) := by
        omega
      have hmod : (((x.year : Int) * 12 + (x.monthZeroIndexed : Int) + 1) % 12).toNat =
          x.monthZeroIndexed + 1 := by omega
      rw [hdiv, hmod]
      rw [Nat.min_eq_left (daysInMonth_pos _ _)]
    rw [addMonths_ok hsv (by rw [ymd_mk_year]; omega) 1
      (by rw [hciv, civil_mk_year]; omega) (by rw [hciv, civil_mk_year]; omega)]
    rw [hciv, toYmd_mk]
    show (Ymd.mk ((x.year : Int)).toNat (x.monthZeroIndexed + 1) 1).addDays (-1) = _
    have hyt : ((x.year : Int)).toNat = x.year := by omega
    rw [hyt]
    have htv : (Ymd.mk x.year (x.monthZeroIndexed + 1) 1).Valid :=
      ymd_valid_mk (by omega) (by omega) (le_refl 1) (daysInMonth_pos _ _)
    have hcv2 : civilOfYmd (Ymd.mk x.year (x.monthZeroIndexed + 1) 1) =
        ⟨(x.year : Int), x.monthZeroIndexed + 1, 1⟩ := rfl
    have hpred : addDaysCivil ⟨(x.year : Int), x.monthZeroIndexed + 1, 1⟩ (-1) =
        ⟨(x.year : Int), x.monthZeroIndexed, daysInMonth (x.year : Int) x.monthZeroIndexed⟩ := by
      rw [addDaysCivil_neg_one]
      unfold predCivil
      norm_num
    rw [addDays_ok htv (by rw [ymd_mk_year]; omega) (-1)
      (by rw [hcv2, hpred, civil_mk_year]; omega) (by rw [hcv2, hpred, civil_mk_year]; omega)]
    rw [hcv2, hpred, toYmd_mk, hyt]
  · have hm11 : x.monthZeroIndexed = 11 := by omega
    have hciv : addMonthsCivil (civilOfYmd (Ymd.mk x.year x.monthZeroIndexed 1)) 1 =
        ⟨(x.year : Int) + 1, 0, 1⟩ := by
      unfold addMonthsCivil civilOfYmd
      dsimp only
      rw [hm11]
      have hdiv : ((x.year : Int) * 12 + ((11 : Nat) : Int) + 1) / 12 = (x.year : Int) + 1 := by
        omega
      have hmod : (((x.year : Int) * 12 + ((11 : Nat) : Int) + 1) % 12).toNat = 0 := by omega
      rw [hdiv, hmod]
      rw [Nat.min_eq_left (daysInMonth_pos _ _)]
    rw [addMonths_ok hsv (by rw [ymd_mk_year]; omega) 1
      (by rw [hciv, civil_mk_year]; omega) (by rw [hciv, civil_mk_year]; omega)]
    rw [hciv, toYmd_mk]
    show (Ymd.mk ((x.year : Int) + 1).toNat 0 1).addDays (-1) = _
    have hyt : ((x.year : Int) + 1).toNat = x.year + 1 := by omega
    rw [hyt]
    have htv : (Ymd.mk (x.year + 1) 0 1).Valid :=
      ymd_valid_mk (by omega) (by omega) (le_refl 1) (daysInMonth_pos _ _)
    have hcv2 : civilOfYmd (Ymd.mk (x.year + 1) 0 1) = ⟨((x.year + 1 : Nat) : Int), 0, 1⟩ := rfl
    have hpred : addDaysCivil ⟨((x.year + 1 : Nat) : Int), 0, 1⟩ (-1) =
        ⟨((x.year + 1 : Nat) : Int) - 1, 11, 31⟩ := by
      rw [addDaysCivil_neg_one]
      unfold predCivil
      norm_num
    rw [addDays_ok htv (by rw [ymd_mk_year]; omega) (-1)
      (by rw [hcv2, hpred, civil_mk_year]; omega) (by rw [hcv2, hpred, civil_mk_year]; omega)]
    rw [hcv2, hpred, toYmd_mk]
    have hyt2 : (((x.year + 1 : Nat) : Int) - 1).toNat = x.year := by omega
    rw [hyt2, hm11]
    have hdim : daysInMonth (x.year : Int) 11 = 31 := by norm_num [daysInMonth]
    rw [hdim]

/-! ### Year-boundary reference dates and weekday search -/

theorem yearStart_valid (y : Int) : CivilDate.Valid ⟨y, 0, 1⟩ :=
  civil_valid_mk (by omega) (le_refl 1) (daysInMonth_pos _ _)

theorem yearEnd_valid (y : Int) : CivilDate.Valid ⟨y, 11, 31⟩ :=
  civil_valid_mk (by omega) (by omega) (by norm_num [daysInMonth])

theorem dayNumber_ge_year_start {c : CivilDate} (h : c.Valid) :
    dayNumber ⟨c.year, 0, 1⟩ ≤ dayNumber c := by
  rcases lex_trichotomy ⟨c.year, 0, 1⟩ c with hlt | he | hgt
  · exact le_of_lt (dayNumber_lt_of_lexLt (yearStart_valid c.year) h hlt)
  · exact le_of_eq (congrArg dayNumber he)
  · exfalso
    have hd1 := h.2.1
    obtain ⟨y, m, d⟩ := c
    simp only [lexLtCivil, civil_mk_year, civil_mk_month, civil_mk_day] at hgt
    simp only [civil_mk_day] at hd1
    omega

theorem dayNumber_le_year_end {c : CivilDate} (h : c.Valid) :
    dayNumber c ≤ dayNumber ⟨c.year, 11, 31⟩ := by
  rcases lex_trichotomy c ⟨c.year, 11, 31⟩ with hlt | he | hgt
  · exact le_of_lt (dayNumber_lt_of_lexLt h (yearEnd_valid c.year) hlt)
  · exact le_of_eq (congrArg dayNumber he)
  · exfalso
    have hm := h.1
    have hd2 := h.2.2
    have h31 := daysInMonth_le_31 c.year c.month
    obtain ⟨y, m, d⟩ := c
    simp only [lexLtCivil, civil_mk_year, civil_mk_month, civil_mk_day] at hgt
    simp only [civil_mk_month, civil_mk_day] at hm hd2 h31
    omega

theorem year_ge_of_dn {x : CivilDate} (h : x.Valid) {yy : Int}
    (hd : dayNumber ⟨yy, 0, 1⟩ ≤ dayNumber x) : yy ≤ x.year := by
  have := year_mono_of_dayNumber (yearStart_valid yy) h hd
  rwa [civil_mk_year] at this

theorem year_le_of_dn {x : CivilDate} (h : x.Valid) {yy : Int}
    (hd : dayNumber x ≤ dayNumber ⟨yy, 11, 31⟩) : x.year ≤ yy := by
  have := year_mono_of_dayNumber h (yearEnd_valid yy) hd
  rwa [civil_mk_year] at this

theorem dayOfWeek_def (x : Ymd) : x.dayOfWeek = ((dayNumberL x + 3) % 7).toNat := rfl

theorem previousDayOfWeekOccurrence_ok {x : Ymd} (h : x.Valid) {t : Nat} (ht : t ≤ 6)
    (hy1 : 1000 ≤ x.year) (hy2 : x.year ≤ 9999)
    (hlow : dayNumber ⟨(1000 : Int), 0, 1⟩ + 7 ≤ dayNumberL x) :
    ∃ r : Ymd, x.previousDayOfWeekOccurrence t = .ok r ∧ r.Valid ∧ 1000 ≤ r.year ∧
      r.year ≤ 9999 ∧ dayNumberL x - 7 ≤ dayNumberL r ∧ dayNumberL r < dayNumberL x ∧
      r.dayOfWeek = t := by
  have hcv : (civilOfYmd x).Valid := civilOfYmd_valid h
  have hdl : dayNumberL x = dayNumber (civilOfYmd x) := dayNumberL_eq h (by omega)
  obtain ⟨hev, he1, he2, he3⟩ := previousDayCivil_spec hcv ht
  set e := previousDayCivil (civilOfYmd x) t with hedef
  have hy1e : 1000 ≤ e.year := year_ge_of_dn hev (by omega)
  have hend : dayNumber ⟨(x.year : Int), 11, 31⟩ ≤ dayNumber ⟨(9999 : Int), 11, 31⟩ := by
    rcases eq_or_lt_of_le (show (x.year : Int) ≤ 9999 by omega) with heq | hlt
    · rw [heq]
    · exact le_of_lt (dayNumber_lt_of_lexLt (yearEnd_valid _) (yearEnd_valid _) (Or.inl hlt))
  have hy2e : e.year ≤ 9999 := by
    apply year_le_of_dn hev
    have hxe := dayNumber_le_year_end hcv
    have hcy : (civilOfYmd x).year = (x.year : Int) := rfl
    rw [hcy] at hxe
    omega
  refine ⟨toYmd e, ?_, toYmd_valid hev (by omega) hy2e, ?_, ?_, ?_, ?_, ?_⟩
  · unfold Ymd.previousDayOfWeekOccurrence
    rw [asDateAtLocal_eq h (by omega)]
    exact fromDateAtLocal_ok hev hy1e hy2e
  · show 1000 ≤ e.year.toNat
    omega
  · show e.year.toNat ≤ 9999
    omega
  · rw [dayNumberL_eq (toYmd_valid hev (by omega) hy2e) (by show 100 ≤ e.year.toNat; omega),
      civilOfYmd_toYmd (by omega)]
    omega
  · rw [dayNumberL_eq (toYmd_valid hev (by omega) hy2e) (by show 100 ≤ e.year.toNat; omega),
      civilOfYmd_toYmd (by omega)]
    omega
  · show getDayCivil (toYmd e).asDateAtLocal = t
    rw [asDateAtLocal_eq (toYmd_valid hev (by omega) hy2e) (by show 100 ≤ e.year.toNat; omega),
      civilOfYmd_toYmd (by omega)]
    exact he3

theorem nextDayOfWeekOccurrence_ok {x : Ymd} (h : x.Valid) {t : Nat} (ht : t ≤ 6)
    (hy1 : 1000 ≤ x.year) (hy2 : x.year ≤ 9999)
    (hhigh : dayNumberL x + 7 ≤ dayNumber ⟨(9999 : Int), 11, 31⟩) :
    ∃ r : Ymd, x.nextDayOfWeekOccurrence t = .ok r ∧ r.Valid ∧ 1000 ≤ r.year ∧
      r.year ≤ 9999 ∧ dayNumberL x < dayNumberL r ∧ dayNumberL r ≤ dayNumberL x + 7 ∧
      r.dayOfWeek = t := by
  have hcv : (civilOfYmd x).Valid := civilOfYmd_valid h
  have hdl : dayNumberL x = dayNumber (civilOfYmd x) := dayNumberL_eq h (by omega)
  obtain ⟨hev, he1, he2, he3⟩ := nextDayCivil_spec hcv ht
  set e := nextDayCivil (civilOfYmd x) t with hedef
  have hstart : dayNumber ⟨(1000 : Int), 0, 1⟩ ≤ dayNumber ⟨(x.year : Int), 0, 1⟩ := by
    rcases eq_or_lt_of_le (show (1000 : Int) ≤ (x.year : Int) by omega) with heq | hlt
    · rw [← heq]
    · exact le_of_lt (dayNumber_lt_of_lexLt (yearStart_valid _) (yearStart_valid _) (Or.inl hlt))
  have hy1e : 1000 ≤ e.year := by
    apply year_ge_of_dn hev
    have hxs := dayNumber_ge_year_start hcv
    have hcy : (civilOfYmd x).year = (x.year : Int) := rfl
    rw [hcy] at hxs
    omega
  have hy2e : e.year ≤ 9999 := year_le_of_dn hev (by omega)
  refine ⟨toYmd e, ?_, toYmd_valid hev (by omega) hy2e, ?_, ?_, ?_, ?_, ?_⟩
  · unfold Ymd.nextDayOfWeekOccurrence
    rw [asDateAtLocal_eq h (by omega)]
    exact fromDateAtLocal_ok hev hy1e hy2e
  · show 1000 ≤ e.year.toNat
    omega
  · show e.year.toNat ≤ 9999
    omega
  · rw [dayNumberL_eq (toYmd_valid hev (by omega) hy2e) (by show 100 ≤ e.year.toNat; omega),
      civilOfYmd_toYmd (by omega)]
    omega
  · rw [dayNumberL_eq (toYmd_valid hev (by omega) hy2e) (by show 100 ≤ e.year.toNat; omega),
      civilOfYmd_toYmd (by omega)]
    omega
  · show getDayCivil (toYmd e).asDateAtLocal = t
    rw [asDateAtLocal_eq (toYmd_valid hev (by omega) hy2e) (by show 100 ≤ e.year.toNat; omega),
      civilOfYmd_toYmd (by omega)]
    exact he3

theorem currentOrPreviousDayOfWeekOccurrence_ok {x : Ymd} (h : x.Valid) {t : Nat} (ht : t ≤ 6)
    (hy1 : 1000 ≤ x.year) (hy2 : x.year ≤ 9999)
    (hlow : dayNumber ⟨(1000 : Int), 0, 1⟩ + 7 ≤ dayNumberL x) :
    ∃ r : Ymd, x.currentOrPreviousDayOfWeekOccurrence t = .ok r ∧ r.Valid ∧ 1000 ≤ r.year ∧
      r.year ≤ 9999 ∧ dayNumberL x - 7 ≤ dayNumberL r ∧ dayNumberL r ≤ dayNumberL x ∧
      r.dayOfWeek = t := by
  unfold Ymd.currentOrPreviousDayOfWeekOccurrence
  by_cases hw : x.dayOfWeek = t
  · rw [if_pos hw]
    exact ⟨x, rfl, h, hy1, hy2, by omega, le_refl _, hw⟩
  · rw [if_neg hw]
    obtain ⟨r, h1, h2, h3, h4, h5, h6, h7⟩ := previousDayOfWeekOccurrence_ok h ht hy1 hy2 hlow
    exact ⟨r, h1, h2, h3, h4, h5, le_of_lt h6, h7⟩

theorem currentOrNextDayOfWeekOccurrence_ok {x : Ymd} (h : x.Valid) {t : Nat} (ht : t ≤ 6)
    (hy1 : 1000 ≤ x.year) (hy2 : x.year ≤ 9999)
    (hhigh : dayNumberL x + 7 ≤ dayNumber ⟨(9999 : Int), 11, 31⟩) :
    ∃ r : Ymd, x.currentOrNextDayOfWeekOccurrence t = .ok r ∧ r.Valid ∧ 1000 ≤ r.year ∧
      r.year ≤ 9999 ∧ dayNumberL x ≤ dayNumberL r ∧ dayNumberL r ≤ dayNumberL x + 7 ∧
      r.dayOfWeek = t := by
  unfold Ymd.currentOrNextDayOfWeekOccurrence
  by_cases hw : x.dayOfWeek = t
  · rw [if_pos hw]
    exact ⟨x, rfl, h, hy1, hy2, le_refl _, by omega, hw⟩
  · rw [if_neg hw]
    obtain ⟨r, h1, h2, h3, h4, h5, h6, h7⟩ := nextDayOfWeekOccurrence_ok h ht hy1 hy2 hhigh
    exact ⟨r, h1, h2, h3, h4, le_of_lt h5, h6, h7⟩

/-! ### Assorted bridges used by the claim theorems -/

theorem yearStart_mono {a b : Int} (h : a ≤ b) :
    dayNumber ⟨a, 0, 1⟩ ≤ dayNumber ⟨b, 0, 1⟩ := by
  rcases eq_or_lt_of_le h with he | hlt
  · rw [he]
  · exact le_of_lt (dayNumber_lt_of_lexLt (yearStart_valid a) (yearStart_valid b) (Or.inl hlt))

theorem yearEnd_mono {a b : Int} (h : a ≤ b) :
    dayNumber ⟨a, 11, 31⟩ ≤ dayNumber ⟨b, 11, 31⟩ := by
  rcases eq_or_lt_of_le h with he | hlt
  · rw [he]
  · exact le_of_lt (dayNumber_lt_of_lexLt (yearEnd_valid a) (yearEnd_valid b) (Or.inl hlt))

theorem yearStart_gap (y : Int) :
    dayNumber ⟨y, 0, 1⟩ + 365 ≤ dayNumber ⟨y + 1, 0, 1⟩ := by
  have := daysBeforeSYear_lt (show y - 1 < y by omega)
  unfold dayNumber sYear sMonth
  norm_num [monthOffset]
  omega

theorem yearEnd_gap (y : Int) :
    dayNumber ⟨y, 11, 31⟩ + 365 ≤ dayNumber ⟨y + 1, 11, 31⟩ := by
  have := daysBeforeSYear_lt (show y < y + 1 by omega)
  unfold dayNumber sYear sMonth
  norm_num [monthOffset]
  omega

theorem dayNumber_day_mono {y : Int} {m d₁ d₂ : Nat} (hd : d₁ ≤ d₂) :
    dayNumber ⟨y, m, d₁⟩ ≤ dayNumber ⟨y, m, d₂⟩ := by
  unfold dayNumber sYear sMonth
  dsimp only
  split_ifs <;> omega

theorem lexLtYmd_iff_civil (a b : Ymd) :
    lexLtYmd a b ↔ lexLtCivil (civilOfYmd a) (civilOfYmd b) := by
  unfold lexLtYmd lexLtCivil civilOfYmd
  dsimp only
  omega

theorem civilOfYmd_inj {a b : Ymd} (h : civilOfYmd a = civilOfYmd b) : a = b := by
  have := congrArg toYmd h
  rwa [toYmd_civilOfYmd, toYmd_civilOfYmd] at this

theorem element_spec {c : CivilDate} (hc : c.Valid) (h1 : 1000 ≤ c.year) (i : Int)
    (hi : 0 ≤ i) (hmax : dayNumber c + i ≤ dayNumber ⟨(9999 : Int), 11, 31⟩) :
    (toYmd (addDaysCivil c i)).Valid ∧ 1000 ≤ (toYmd (addDaysCivil c i)).year ∧
      (toYmd (addDaysCivil c i)).year ≤ 9999 ∧
      dayNumberL (toYmd (addDaysCivil c i)) = dayNumber c + i := by
  have hv := addDaysCivil_valid hc i
  have hd := addDaysCivil_dayNumber hc i
  have hylo : (1000 : Int) ≤ (addDaysCivil c i).year := by
    have := year_mono_of_dayNumber hc hv (by omega)
    omega
  have hyhi : (addDaysCivil c i).year ≤ 9999 := year_le_of_dn hv (by omega)
  have htv : (toYmd (addDaysCivil c i)).Valid := toYmd_valid hv (by omega) hyhi
  refine ⟨htv, ?_, ?_, ?_⟩
  · show 1000 ≤ (addDaysCivil c i).year.toNat
    omega
  · show (addDaysCivil c i).year.toNat ≤ 9999
    omega
  · rw [dayNumberL_eq htv (by show 100 ≤ (addDaysCivil c i).year.toNat; omega),
      civilOfYmd_toYmd (by omega)]
    exact hd

theorem value_mk (y m d : Nat) : (Ymd.mk y m d).value = mkCanonical y (m + 1) d := rfl

/-- C1 (amended): round-trip holds for every valid canonical string whose year
field is at least 1000 — whenever the constructor accepts `s` and the stored
year is four digits wide, re-serializing through the `value` getter returns
exactly `s`.  (For year fields below 1000 the claim as frozen fails, because
`value` prints the year unpadded; see the counterexample.) -/
theorem claim_C1_amended {s : String} {x : Ymd} (h : Ymd.parse s = .ok x)
    (hy : 1000 ≤ x.year) : x.value = s := by
  obtain ⟨hs, hr, hx⟩ := parse_ok_cases h
  obtain ⟨l⟩ := s
  rcases l with _ | ⟨c0, _ | ⟨c1, _ | ⟨c2, _ | ⟨c3, _ | ⟨c4, _ | ⟨c5, _ | ⟨c6, _ | ⟨c7, _ | ⟨c8, _ | ⟨c9, _ | ⟨c10, rest⟩⟩⟩⟩⟩⟩⟩⟩⟩⟩⟩
  case cons.cons.cons.cons.cons.cons.cons.cons.cons.cons.nil =>
    simp only [shapeOk, Bool.and_eq_true, beq_iff_eq] at hs
    obtain ⟨⟨⟨⟨⟨⟨⟨⟨⟨⟨-, hd0⟩, hd1⟩, hd2⟩, hd3⟩, hh1⟩, hd5⟩, hd6⟩, hh2⟩, hd8⟩, hd9⟩ := hs
    have hp0 : (List.getD [c0, c1, c2, c3, c4, c5, c6, c7, c8, c9] 0 ' ') = c0 := rfl
    have hp1 : (List.getD [c0, c1, c2, c3, c4, c5, c6, c7, c8, c9] 1 ' ') = c1 := rfl
    have hp2 : (List.getD [c0, c1, c2, c3, c4, c5, c6, c7, c8, c9] 2 ' ') = c2 := rfl
    have hp3 : (List.getD [c0, c1, c2, c3, c4, c5, c6, c7, c8, c9] 3 ' ') = c3 := rfl
    have hp4 : (List.getD [c0, c1, c2, c3, c4, c5, c6, c7, c8, c9] 4 ' ') = c4 := rfl
    have hp5 : (List.getD [c0, c1, c2, c3, c4, c5, c6, c7, c8, c9] 5 ' ') = c5 := rfl
    have hp6 : (List.getD [c0, c1, c2, c3, c4, c5, c6, c7, c8, c9] 6 ' ') = c6 := rfl
    have hp7 : (List.getD [c0, c1, c2, c3, c4, c5, c6, c7, c8, c9] 7 ' ') = c7 := rfl
    have hp8 : (List.getD [c0, c1, c2, c3, c4, c5, c6, c7, c8, c9] 8 ' ') = c8 := rfl
    have hp9 : (List.getD [c0, c1, c2, c3, c4, c5, c6, c7, c8, c9] 9 ' ') = c9 := rfl
    rw [hp0] at hd0
    rw [hp1] at hd1
    rw [hp2] at hd2
    rw [hp3] at hd3
    rw [hp4] at hh1
    rw [hp5] at hd5
    rw [hp6] at hd6
    rw [hp7] at hh2
    rw [hp8] at hd8
    rw [hp9] at hd9
    subst hh1
    subst hh2
    have e0 := digitVal_le_of_isDigit hd0
    have e1 := digitVal_le_of_isDigit hd1
    have e2 := digitVal_le_of_isDigit hd2
    have e3 := digitVal_le_of_isDigit hd3
    have e5 := digitVal_le_of_isDigit hd5
    have e6 := digitVal_le_of_isDigit hd6
    have e8 := digitVal_le_of_isDigit hd8
    have e9 := digitVal_le_of_isDigit hd9
    have hYe : yearOf [c0, c1, c2, c3, '-', c5, c6, '-', c8, c9] =
        1000 * digitVal c0 + 100 * digitVal c1 + 10 * digitVal c2 + digitVal c3 := rfl
    have hMe : monthFieldOf [c0, c1, c2, c3, '-', c5, c6, '-', c8, c9] =
        10 * digitVal c5 + digitVal c6 := rfl
    have hDe : dayFieldOf [c0, c1, c2, c3, '-', c5, c6, '-', c8, c9] =
        10 * digitVal c8 + digitVal c9 := rfl
    obtain ⟨hm1, hm2, hdd1, hdd2⟩ := hr
    rw [hYe, hMe, hDe] at hx
    rw [hMe] at hm1 hm2
    rw [hDe] at hdd1
    rw [hx] at hy
    have hy' : 1000 ≤ 1000 * digitVal c0 + 100 * digitVal c1 + 10 * digitVal c2 + digitVal c3 :=
      hy
    rw [hx, value_mk]
    have hplus : 10 * digitVal c5 + digitVal c6 - 1 + 1 = 10 * digitVal c5 + digitVal c6 := by
      omega
    rw [hplus]
    unfold mkCanonical
    rw [decimalRepr_four (by omega) (by omega), pad2_decimalRepr (by omega),
      pad2_decimalRepr (by omega)]
    have g0 : digitChar ((1000 * digitVal c0 + 100 * digitVal c1 + 10 * digitVal c2 +
        digitVal c3) / 1000) = c0 := by
      have hq : (1000 * digitVal c0 + 100 * digitVal c1 + 10 * digitVal c2 +
          digitVal c3) / 1000 = digitVal c0 := by omega
      rw [hq]
      exact digitChar_digitVal hd0
    have g1 : digitChar ((1000 * digitVal c0 + 100 * digitVal c1 + 10 * digitVal c2 +
        digitVal c3) / 100 % 10) = c1 := by
      have hq : (1000 * digitVal c0 + 100 * digitVal c1 + 10 * digitVal c2 +
          digitVal c3) / 100 % 10 = digitVal c1 := by omega
      rw [hq]
      exact digitChar_digitVal hd1
    have g2 : digitChar ((1000 * digitVal c0 + 100 * digitVal c1 + 10 * digitVal c2 +
        digitVal c3) / 10 % 10) = c2 := by
      have hq : (1000 * digitVal c0 + 100 * digitVal c1 + 10 * digitVal c2 +
          digitVal c3) / 10 % 10 = digitVal c2 := by omega
      rw [hq]
      exact digitChar_digitVal hd2
    have g3 : digitChar ((1000 * digitVal c0 + 100 * digitVal c1 + 10 * digitVal c2 +
        digitVal c3) % 10) = c3 := by
      have hq : (1000 * digitVal c0 + 100 * digitVal c1 + 10 * digitVal c2 +
          digitVal c3) % 10 = digitVal c3 := by omega
      rw [hq]
      exact digitChar_digitVal hd3
    have g5 : digitChar ((10 * digitVal c5 + digitVal c6) / 10) = c5 := by
      have hq : (10 * digitVal c5 + digitVal c6) / 10 = digitVal c5 := by omega
      rw [hq]
      exact digitChar_digitVal hd5
    have g6 : digitChar ((10 * digitVal c5 + digitVal c6) % 10) = c6 := by
      have hq : (10 * digitVal c5 + digitVal c6) % 10 = digitVal c6 := by omega
      rw [hq]
      exact digitChar_digitVal hd6
    have g8 : digitChar ((10 * digitVal c8 + digitVal c9) / 10) = c8 := by
      have hq : (10 * digitVal c8 + digitVal c9) / 10 = digitVal c8 := by omega
      rw [hq]
      exact digitChar_digitVal hd8
    have g9 : digitChar ((10 * digitVal c8 + digitVal c9) % 10) = c9 := by
      have hq : (10 * digitVal c8 + digitVal c9) % 10 = digitVal c9 := by omega
      rw [hq]
      exact digitChar_digitVal hd9
    rw [g0, g1, g2, g3, g5, g6, g8, g9]
    rfl
  all_goals
    exact absurd h (by intro hh; exact Except.noConfusion hh)

/-- C1 witness: the theorem applied to the concrete string "2025-03-09". -/
theorem claim_C1_witness :
    Ymd.parse "2025-03-09" = .ok ⟨2025, 2, 9⟩ ∧ 1000 ≤ (Ymd.mk 2025 2 9).year ∧
      (Ymd.mk 2025 2 9).value = "2025-03-09" :=
  ⟨rfl, by decide, claim_C1_amended rfl (by decide)⟩

/-- C1 counterexample: "0999-12-31" is a valid canonical string (fixed-width
shape, real proleptic-Gregorian date) and the constructor accepts it, but the
`value` getter prints the year without padding, so the round-trip returns
"999-12-31", not the original string. -/
theorem claim_C1_counterexample :
    Ymd.parse "0999-12-31" = .ok ⟨999, 11, 31⟩ ∧
      (Ymd.mk 999 11 31).value = "999-12-31" ∧
      (Ymd.mk 999 11 31).value ≠ "0999-12-31" := by
  refine ⟨rfl, rfl, by decide⟩

/-- C2: the constructor fails with the plain format error exactly when the
input does not match the fixed-width `\d{4}-\d{2}-\d{2}` shape, and fails with
the distinct `YmdInvalidDateError` exactly when the shape matches but the
fields do not denote a real proleptic-Gregorian date; in particular
"2024-02-30" raises the invalid-date error while "2024-2-30" raises the
format error. -/
theorem claim_C2_errors :
    (∀ s : String,
      (Ymd.parse s = .error .formatError ↔ shapeOk s.data = false) ∧
      (Ymd.parse s = .error .invalidDateError ↔
        (shapeOk s.data = true ∧ ¬ RealFields s.data))) ∧
    Ymd.parse "2024-02-30" = .error .invalidDateError ∧
    Ymd.parse "2024-2-30" = .error .formatError := by
  refine ⟨fun s => ?_, rfl, rfl⟩
  obtain ⟨h1, h2⟩ := parse_spec s
  cases hs : shapeOk s.data with
  | false =>
    rw [h1 hs]
    constructor
    · simp
    · simp
  | true =>
    rw [h2 hs]
    by_cases hr : RealFields s.data
    · rw [if_pos hr]
      constructor <;> simp [hr]
    · rw [if_neg hr]
      constructor <;> simp [hr]

/-- C3 (amended): for all valid `Ymd` values with four-digit years, the signed
day difference is antisymmetric, adding it to `from` lands exactly on `to`,
and it is negative exactly when `to` chronologically precedes `from`.  (For
constructible dates with year below 1000 the claim as frozen fails: see the
counterexample, where the two-digit-year rule of `new Date(y, m, d)` makes
`addDays` return a date 1900 years away.) -/
theorem claim_C3_amended (a b : Ymd) (ha : a.Valid) (hb : b.Valid)
    (hya : 1000 ≤ a.year) (hyb : 1000 ≤ b.year) :
    Ymd.differenceInDays a b = - Ymd.differenceInDays b a ∧
    a.addDays (Ymd.differenceInDays a b) = .ok b ∧
    (Ymd.differenceInDays a b < 0 ↔ lexLtYmd b a) := by
  have hca := civilOfYmd_valid ha
  have hcb := civilOfYmd_valid hb
  have hda : dayNumberL a = dayNumber (civilOfYmd a) := dayNumberL_eq ha (by omega)
  have hdb : dayNumberL b = dayNumber (civilOfYmd b) := dayNumberL_eq hb (by omega)
  refine ⟨by unfold Ymd.differenceInDays; ring, ?_, ?_⟩
  · have hdiff : Ymd.differenceInDays a b =
        dayNumber (civilOfYmd b) - dayNumber (civilOfYmd a) := by
      unfold Ymd.differenceInDays
      omega
    rw [hdiff]
    have hcancel := addDaysCivil_cancel hca hcb
    have h1 : 1000 ≤ (addDaysCivil (civilOfYmd a)
        (dayNumber (civilOfYmd b) - dayNumber (civilOfYmd a))).year := by
      rw [hcancel]
      show (1000 : Int) ≤ (b.year : Int)
      omega
    have h2 : (addDaysCivil (civilOfYmd a)
        (dayNumber (civilOfYmd b) - dayNumber (civilOfYmd a))).year ≤ 9999 := by
      rw [hcancel]
      show ((b.year : Int)) ≤ 9999
      have := hb.1
      omega
    rw [addDays_ok ha (by omega) _ h1 h2, hcancel, toYmd_civilOfYmd]
  · rw [lexLtYmd_iff_civil]
    rw [lexLt_iff_dayNumber hcb hca]
    unfold Ymd.differenceInDays
    omega

/-- C3 witness: the theorem applied to 2025-01-01 and 2025-02-01. -/
theorem claim_C3_witness :
    (Ymd.mk 2025 0 1).Valid ∧ (Ymd.mk 2025 1 1).Valid ∧
    1000 ≤ (Ymd.mk 2025 0 1).year ∧ 1000 ≤ (Ymd.mk 2025 1 1).year ∧
    (Ymd.differenceInDays ⟨2025, 0, 1⟩ ⟨2025, 1, 1⟩ =
        - Ymd.differenceInDays ⟨2025, 1, 1⟩ ⟨2025, 0, 1⟩ ∧
      (Ymd.mk 2025 0 1).addDays (Ymd.differenceInDays ⟨2025, 0, 1⟩ ⟨2025, 1, 1⟩) =
        .ok ⟨2025, 1, 1⟩ ∧
      (Ymd.differenceInDays ⟨2025, 0, 1⟩ ⟨2025, 1, 1⟩ < 0 ↔
        lexLtYmd ⟨2025, 1, 1⟩ ⟨2025, 0, 1⟩)) :=
  ⟨by decide, by decide, by decide, by decide,
    claim_C3_amended _ _ (by decide) (by decide) (by decide) (by decide)⟩

/-- C3 counterexample: both "0050-01-01" and "0050-01-05" are constructible
`Ymd` values; their signed difference is 4, but adding 4 days to the former
yields 1950-01-05 (the two-digit-year rule of `new Date`), not 0050-01-05, so
`a.addDays(differenceInDays({from: a, to: b}))` does not equal `b`. -/
theorem claim_C3_counterexample :
    Ymd.parse "0050-01-01" = .ok ⟨50, 0, 1⟩ ∧ Ymd.parse "0050-01-05" = .ok ⟨50, 0, 5⟩ ∧
    Ymd.differenceInDays ⟨50, 0, 1⟩ ⟨50, 0, 5⟩ = 4 ∧
    (Ymd.mk 50 0 1).addDays 4 = .ok ⟨1950, 0, 5⟩ ∧
    (Ymd.mk 1950 0 5 : Ymd) ≠ ⟨50, 0, 5⟩ :=
  ⟨rfl, rfl, by decide, rfl, by decide⟩

set_option maxRecDepth 8000 in
/-- C4 (amended): for a valid `Ymd` with a four-digit year and a month count
whose target month also falls in the four-digit-year range, `addMonths n`
succeeds, moves exactly `n` calendar months, and sets the day-of-month to the
original day clamped to the length of the resulting month; in particular
`build(2023,0,28).addMonths(1)` and `build(2023,0,31).addMonths(1)` both
serialize to "2023-02-28".  (Outside the four-digit range the claim as frozen
fails: see the counterexample, where the re-parse of the formatted result
throws the format error instead of clamping.) -/
theorem claim_C4_amended (x : Ymd) (h : x.Valid) (hy : 1000 ≤ x.year) (n : Int)
    (h1 : 1000 * 12 ≤ (x.year : Int) * 12 + (x.monthZeroIndexed : Int) + n)
    (h2 : (x.year : Int) * 12 + (x.monthZeroIndexed : Int) + n ≤ 9999 * 12 + 11) :
    (∃ e : Ymd, x.addMonths n = .ok e ∧ e.Valid ∧
      (e.year : Int) * 12 + (e.monthZeroIndexed : Int) =
        (x.year : Int) * 12 + (x.monthZeroIndexed : Int) + n ∧
      e.dayOfMonth = min x.dayOfMonth (daysInMonth (e.year : Int) e.monthZeroIndexed)) ∧
    ((Ymd.build 2023 0 28).bind (fun d => d.addMonths 1)).map Ymd.value = .ok "2023-02-28" ∧
    ((Ymd.build 2023 0 31).bind (fun d => d.addMonths 1)).map Ymd.value = .ok "2023-02-28" := by
  refine ⟨?_, rfl, rfl⟩
  have hcv := civilOfYmd_valid h
  obtain ⟨hmv, hmy, hmm, hmd⟩ := addMonthsCivil_spec hcv n
  set c := addMonthsCivil (civilOfYmd x) n with hcdef
  have hcym : (civilOfYmd x).year = (x.year : Int) := rfl
  have hcmm : ((civilOfYmd x).month : Int) = (x.monthZeroIndexed : Int) := rfl
  rw [hcym, hcmm] at hmy hmm
  have hy1 : 1000 ≤ c.year := by
    rw [hmy]
    omega
  have hy2 : c.year ≤ 9999 := by
    rw [hmy]
    omega
  refine ⟨toYmd c, addMonths_ok h (by omega) n hy1 hy2, toYmd_valid hmv (by omega) hy2, ?_, ?_⟩
  · have hty : ((toYmd c).year : Int) = c.year := by
      show ((c.year.toNat : Nat) : Int) = c.year
      omega
    have htm : ((toYmd c).monthZeroIndexed : Int) = (c.month : Int) := rfl
    rw [hty, htm, hmm, hmy]
    omega
  · have hty : ((toYmd c).year : Int) = c.year := by
      show ((c.year.toNat : Nat) : Int) = c.year
      omega
    have htm : (toYmd c).monthZeroIndexed = c.month := rfl
    have htd : (toYmd c).dayOfMonth = c.day := rfl
    have hxd : (civilOfYmd x).day = x.dayOfMonth := rfl
    rw [htd, htm, hty, hmd, hxd]

set_option maxRecDepth 8000 in
/-- C4 witness: the theorem applied to 2023-01-31 with one month added. -/
theorem claim_C4_witness :
    (Ymd.mk 2023 0 31).Valid ∧ 1000 ≤ (Ymd.mk 2023 0 31).year ∧
    1000 * 12 ≤ ((2023 : Nat) : Int) * 12 + ((0 : Nat) : Int) + 1 ∧
    ((2023 : Nat) : Int) * 12 + ((0 : Nat) : Int) + 1 ≤ 9999 * 12 + 11 ∧
    ((∃ e : Ymd, (Ymd.mk 2023 0 31).addMonths 1 = .ok e ∧ e.Valid ∧
      (e.year : Int) * 12 + (e.monthZeroIndexed : Int) =
        ((2023 : Nat) : Int) * 12 + ((0 : Nat) : Int) + 1 ∧
      e.dayOfMonth = min (Ymd.mk 2023 0 31).dayOfMonth
        (daysInMonth (e.year : Int) e.monthZeroIndexed)) ∧
    ((Ymd.build 2023 0 28).bind (fun d => d.addMonths 1)).map Ymd.value = .ok "2023-02-28" ∧
    ((Ymd.build 2023 0 31).bind (fun d => d.addMonths 1)).map Ymd.value = .ok "2023-02-28") :=
  ⟨by decide, by decide, by decide, by decide,
    claim_C4_amended (Ymd.mk 2023 0 31) (by decide) (by decide) 1 (by decide) (by decide)⟩

set_option maxRecDepth 8000 in
/-- C4 counterexample: 0100-01-31 is a constructible `Ymd` (parse accepts the
canonical string), yet `addMonths(1)` does not produce the clamped date
0100-02-28 — the re-parse of the three-digit-year string "100-02-28" throws
the plain format error. -/
theorem claim_C4_counterexample :
    Ymd.parse "0100-01-31" = .ok ⟨100, 0, 31⟩ ∧
    (Ymd.mk 100 0 31).addMonths 1 = .error .formatError :=
  ⟨rfl, rfl⟩

/-- C6 (amended): for a year in the four-digit range 1000..9999 and month/day
components whose formatted fields are two digits wide, `build` succeeds with
exactly the given components when the triple denotes a real
proleptic-Gregorian date and fails with the distinct invalid-date error
otherwise.  (The frozen claim's "any representable year" fails: a real date
such as (999, 0, 1) makes `build` throw the plain format error, because the
formatted year "999" does not match the fixed four-digit pattern; see the
counterexample.) -/
theorem claim_C6_amended (y m d : Int) (hy1 : 1000 ≤ y) (hy2 : y ≤ 9999)
    (hm1 : 0 ≤ m + 1) (hm2 : m + 1 ≤ 99) (hd1 : 0 ≤ d) (hd2 : d ≤ 99) :
    ((0 ≤ m ∧ m ≤ 11 ∧ 1 ≤ d ∧ d ≤ (daysInMonth y m.toNat : Int)) →
      Ymd.build y m d = .ok ⟨y.toNat, m.toNat, d.toNat⟩) ∧
    (¬(0 ≤ m ∧ m ≤ 11 ∧ 1 ≤ d ∧ d ≤ (daysInMonth y m.toNat : Int)) →
      Ymd.build y m d = .error .invalidDateError) := by
  unfold Ymd.build
  rw [mkCanonicalI_eq (by omega) (by omega) (by omega)]
  rw [parse_mkCanonical (by omega) (by omega) (by omega) (by omega)]
  have hyt : ((y.toNat : Nat) : Int) = y := by omega
  by_cases hreal : 0 ≤ m ∧ m ≤ 11 ∧ 1 ≤ d ∧ d ≤ (daysInMonth y m.toNat : Int)
  · obtain ⟨hr1, hr2, hr3, hr4⟩ := hreal
    have hmt : (m + 1).toNat - 1 = m.toNat := by omega
    rw [if_pos]
    · refine ⟨fun _ => ?_, fun hcon => absurd ⟨hr1, hr2, hr3, hr4⟩ hcon⟩
      rw [hmt]
    · refine ⟨by omega, by omega, by omega, ?_⟩
      rw [hmt, hyt]
      omega
  · rw [if_neg]
    · exact ⟨fun hcon => absurd hcon hreal, fun _ => rfl⟩
    · rintro ⟨hb1, hb2, hb3, hb4⟩
      apply hreal
      have hm0 : 0 ≤ m := by omega
      have hmt : (m + 1).toNat - 1 = m.toNat := by omega
      rw [hmt, hyt] at hb4
      exact ⟨hm0, by omega, by omega, by omega⟩

/-- C6 witness: the theorem applied to the leap day (2024, 1, 29). -/
theorem claim_C6_witness :
    (1000 ≤ (2024 : Int) ∧ (2024 : Int) ≤ 9999 ∧ 0 ≤ (1 : Int) + 1 ∧ (1 : Int) + 1 ≤ 99 ∧
      0 ≤ (29 : Int) ∧ (29 : Int) ≤ 99) ∧
    (0 ≤ (1 : Int) ∧ (1 : Int) ≤ 11 ∧ 1 ≤ (29 : Int) ∧
      (29 : Int) ≤ (daysInMonth 2024 (1 : Int).toNat : Int)) ∧
    Ymd.build 2024 1 29 = .ok ⟨2024, 1, 29⟩ := by
  refine ⟨by norm_num, by decide, ?_⟩
  exact (claim_C6_amended 2024 1 29 (by norm_num) (by norm_num) (by norm_num) (by norm_num)
    (by norm_num) (by norm_num)).1 (by decide)

/-- C6 counterexample: (999, 0, 1) denotes the real calendar date 999-01-01
(month 0 with 31 days), yet `build` fails — and with the plain format error,
not the invalid-date error the claim allows. -/
theorem claim_C6_counterexample :
    CivilDate.Valid ⟨999, 0, 1⟩ ∧ Ymd.build 999 0 1 = .error .formatError :=
  ⟨by decide, rfl⟩

set_option maxRecDepth 8000 in
/-- C7 (amended): for valid `Ymd` endpoints with four-digit years,
`countDaysInclusive` fails with the range-order error exactly when `from`
chronologically follows `to`, and otherwise returns
`differenceInDays({from, to}) + 1`; in particular the count from 2025-01-01
to 2025-01-31 is 31.  (For constructible endpoints with years below 1000 the
claim as frozen fails: the two-digit-year rule reverses the comparison, so a
chronologically ordered pair can raise the range-order error; see the
counterexample.) -/
theorem claim_C7_amended (f t : Ymd) (hf : f.Valid) (ht : t.Valid)
    (hyf : 1000 ≤ f.year) (hyt : 1000 ≤ t.year) :
    (lexLtYmd t f → Ymd.countDaysInclusive f t = .error .rangeOrderError) ∧
    (¬ lexLtYmd t f → Ymd.countDaysInclusive f t = .ok (Ymd.differenceInDays f t + 1)) ∧
    Ymd.parse "2025-01-01" = .ok ⟨2025, 0, 1⟩ ∧
    Ymd.parse "2025-01-31" = .ok ⟨2025, 0, 31⟩ ∧
    Ymd.countDaysInclusive ⟨2025, 0, 1⟩ ⟨2025, 0, 31⟩ = .ok 31 := by
  have hcf := civilOfYmd_valid hf
  have hct := civilOfYmd_valid ht
  have hlex : lexLtYmd t f ↔ dayNumberL t < dayNumberL f := by
    rw [lexLtYmd_iff_civil, lexLt_iff_dayNumber hct hcf,
      dayNumberL_eq hf (by omega), dayNumberL_eq ht (by omega)]
  refine ⟨?_, ?_, rfl, rfl, rfl⟩
  · intro hlt
    unfold Ymd.countDaysInclusive
    rw [if_pos (gt_iff.mpr (hlex.mp hlt))]
  · intro hge
    unfold Ymd.countDaysInclusive
    rw [if_neg]
    · rfl
    · intro hc
      exact hge (hlex.mpr (gt_iff.mp hc))

set_option maxRecDepth 8000 in
/-- C7 witness: the theorem applied to 2025-01-01 and 2025-01-31. -/
theorem claim_C7_witness :
    (Ymd.mk 2025 0 1).Valid ∧ (Ymd.mk 2025 0 31).Valid ∧
    1000 ≤ (Ymd.mk 2025 0 1).year ∧ 1000 ≤ (Ymd.mk 2025 0 31).year ∧
    ¬ lexLtYmd ⟨2025, 0, 31⟩ ⟨2025, 0, 1⟩ ∧
    Ymd.countDaysInclusive ⟨2025, 0, 1⟩ ⟨2025, 0, 31⟩ =
      .ok (Ymd.differenceInDays ⟨2025, 0, 1⟩ ⟨2025, 0, 31⟩ + 1) :=
  ⟨by decide, by decide, by decide, by decide, by decide,
    (claim_C7_amended ⟨2025, 0, 1⟩ ⟨2025, 0, 31⟩ (by decide) (by decide) (by decide)
      (by decide)).2.1 (by decide)⟩

set_option maxRecDepth 8000 in
/-- C7 counterexample: 0099-01-01 chronologically precedes 0100-01-01, yet
`countDaysInclusive({from: 0099-01-01, to: 0100-01-01})` raises the
range-order error — the two-digit-year rule maps year 99 to 1999, so the
internal comparison sees `from` after `to`. -/
theorem claim_C7_counterexample :
    Ymd.parse "0099-01-01" = .ok ⟨99, 0, 1⟩ ∧
    Ymd.parse "0100-01-01" = .ok ⟨100, 0, 1⟩ ∧
    lexLtYmd ⟨99, 0, 1⟩ ⟨100, 0, 1⟩ ∧
    Ymd.countDaysInclusive ⟨99, 0, 1⟩ ⟨100, 0, 1⟩ = .error .rangeOrderError :=
  ⟨rfl, rfl, by decide, rfl⟩

/-- C8 (amended): for valid `Ymd` values with four-digit years the three-way
comparator is sign-equivalent with the date order — negative exactly when
`a` precedes `b`, zero exactly when `a` and `b` are the same date (and the
`eq` predicate agrees), positive exactly when `b` precedes `a` — and
`compareDesc` is its negation.  (For constructible values with years below
1000 the zero case of the frozen claim fails: 0050-01-01 and 1950-01-01
compare as 0 but are not equal; see the counterexample.) -/
theorem claim_C8_amended (a b : Ymd) (ha : a.Valid) (hb : b.Valid)
    (hya : 1000 ≤ a.year) (hyb : 1000 ≤ b.year) :
    (Ymd.compareAsc a b < 0 ↔ lexLtYmd a b) ∧
    (Ymd.compareAsc a b = 0 ↔ a = b) ∧
    (0 < Ymd.compareAsc a b ↔ lexLtYmd b a) ∧
    (a.eq b = true ↔ a = b) ∧
    Ymd.compareDesc a b = - Ymd.compareAsc a b := by
  have hca := civilOfYmd_valid ha
  have hcb := civilOfYmd_valid hb
  have hda : dayNumberL a = dayNumber (civilOfYmd a) := dayNumberL_eq ha (by omega)
  have hdb : dayNumberL b = dayNumber (civilOfYmd b) := dayNumberL_eq hb (by omega)
  have hcmp : Ymd.compareAsc a b = dayNumberL a - dayNumberL b := rfl
  refine ⟨?_, ?_, ?_, eq_iff ha hb hya hyb, rfl⟩
  · rw [hcmp, lexLtYmd_iff_civil, lexLt_iff_dayNumber hca hcb]
    omega
  · constructor
    · intro h0
      apply civilOfYmd_inj
      apply dayNumber_inj hca hcb
      omega
    · intro he
      rw [he]
      show dayNumberL b - dayNumberL b = 0
      ring
  · rw [hcmp, lexLtYmd_iff_civil, lexLt_iff_dayNumber hcb hca]
    omega

set_option maxRecDepth 8000 in
/-- C8 witness: the theorem applied to 2024-05-05 and 2024-05-06. -/
theorem claim_C8_witness :
    (Ymd.mk 2024 4 5).Valid ∧ (Ymd.mk 2024 4 6).Valid ∧
    1000 ≤ (Ymd.mk 2024 4 5).year ∧ 1000 ≤ (Ymd.mk 2024 4 6).year ∧
    ((Ymd.compareAsc ⟨2024, 4, 5⟩ ⟨2024, 4, 6⟩ < 0 ↔ lexLtYmd ⟨2024, 4, 5⟩ ⟨2024, 4, 6⟩) ∧
      (Ymd.compareAsc ⟨2024, 4, 5⟩ ⟨2024, 4, 6⟩ = 0 ↔ (Ymd.mk 2024 4 5 : Ymd) = ⟨2024, 4, 6⟩) ∧
      (0 < Ymd.compareAsc ⟨2024, 4, 5⟩ ⟨2024, 4, 6⟩ ↔ lexLtYmd ⟨2024, 4, 6⟩ ⟨2024, 4, 5⟩) ∧
      ((Ymd.mk 2024 4 5).eq ⟨2024, 4, 6⟩ = true ↔ (Ymd.mk 2024 4 5 : Ymd) = ⟨2024, 4, 6⟩) ∧
      Ymd.compareDesc ⟨2024, 4, 5⟩ ⟨2024, 4, 6⟩ = - Ymd.compareAsc ⟨2024, 4, 5⟩ ⟨2024, 4, 6⟩) :=
  ⟨by decide, by decide, by decide, by decide,
    claim_C8_amended ⟨2024, 4, 5⟩ ⟨2024, 4, 6⟩ (by decide) (by decide) (by decide) (by decide)⟩

set_option maxRecDepth 8000 in
/-- C8 counterexample: 0050-01-01 and 1950-01-01 are distinct constructible
dates, yet the comparator returns 0 for them (both map to the same
`new Date` timeline point under the two-digit-year rule) while `eq` — which
compares canonical strings — correctly reports them different, violating
"compareAsc == 0 iff equal". -/
theorem claim_C8_counterexample :
    Ymd.parse "0050-01-01" = .ok ⟨50, 0, 1⟩ ∧
    Ymd.parse "1950-01-01" = .ok ⟨1950, 0, 1⟩ ∧
    Ymd.compareAsc ⟨50, 0, 1⟩ ⟨1950, 0, 1⟩ = 0 ∧
    (Ymd.mk 50 0 1).eq ⟨1950, 0, 1⟩ = false ∧
    (Ymd.mk 50 0 1 : Ymd) ≠ ⟨1950, 0, 1⟩ :=
  ⟨rfl, rfl, by decide, by decide, by decide⟩

set_option maxRecDepth 8000 in
/-- C9 (amended): for a valid `Ymd` with year in 1001..9999 and a target
weekday 0..6, `previousDayOfWeekOccurrence` returns the nearest date strictly
earlier than `d` whose weekday equals the target — never `d` itself — while
`currentOrPreviousDayOfWeekOccurrence` returns `d` itself exactly when `d`'s
weekday already matches and otherwise delegates to the strict search; and
2023-11-13 (a Monday) maps to 2023-11-07 for Tuesday and to itself for
Monday.  (For constructible dates with smaller years the claim as frozen
fails: the search's re-parse throws the format error; see the
counterexample.) -/
theorem claim_C9_amended (d : Ymd) (h : d.Valid) (hy1 : 1001 ≤ d.year)
    (hy2 : d.year ≤ 9999) (t : Nat) (ht : t ≤ 6) :
    (∃ e : Ymd, d.previousDayOfWeekOccurrence t = .ok e ∧ e.Valid ∧ e.dayOfWeek = t ∧
      dayNumberL e < dayNumberL d ∧
      (∀ z : Ymd, z.Valid → 1000 ≤ z.year → z.dayOfWeek = t →
        dayNumberL z < dayNumberL d → dayNumberL z ≤ dayNumberL e)) ∧
    (d.dayOfWeek = t → d.currentOrPreviousDayOfWeekOccurrence t = .ok d) ∧
    (d.dayOfWeek ≠ t →
      d.currentOrPreviousDayOfWeekOccurrence t = d.previousDayOfWeekOccurrence t) ∧
    (Ymd.mk 2023 10 13).dayOfWeek = 1 ∧
    ((Ymd.mk 2023 10 13).previousDayOfWeekOccurrence 2).map Ymd.value = .ok "2023-11-07" ∧
    ((Ymd.mk 2023 10 13).currentOrPreviousDayOfWeekOccurrence 1).map Ymd.value =
      .ok "2023-11-13" := by
  have hcv := civilOfYmd_valid h
  have hdl : dayNumberL d = dayNumber (civilOfYmd d) := dayNumberL_eq h (by omega)
  have hlow : dayNumber ⟨(1000 : Int), 0, 1⟩ + 7 ≤ dayNumberL d := by
    have hgap := yearStart_gap 1000
    norm_num at hgap
    have hmono : dayNumber ⟨(1001 : Int), 0, 1⟩ ≤ dayNumber ⟨((d.year : Nat) : Int), 0, 1⟩ :=
      yearStart_mono (by omega)
    have hstart := dayNumber_ge_year_start hcv
    have hcy : (civilOfYmd d).year = ((d.year : Nat) : Int) := rfl
    rw [hcy] at hstart
    omega
  obtain ⟨e, he1, he2, he3, he4, he5, he6, he7⟩ :=
    previousDayOfWeekOccurrence_ok h ht (by omega) hy2 hlow
  refine ⟨⟨e, he1, he2, he7, he6, ?_⟩, ?_, ?_, by decide, rfl, rfl⟩
  · intro z hzv hzy hzw hzlt
    rw [dayOfWeek_def] at hzw he7
    omega
  · intro hw
    unfold Ymd.currentOrPreviousDayOfWeekOccurrence
    rw [if_pos hw]
  · intro hw
    unfold Ymd.currentOrPreviousDayOfWeekOccurrence
    rw [if_neg hw]

set_option maxRecDepth 8000 in
/-- C9 witness: the theorem applied to 2023-11-13 with target Tuesday. -/
theorem claim_C9_witness :
    (Ymd.mk 2023 10 13).Valid ∧ 1001 ≤ (Ymd.mk 2023 10 13).year ∧
    (Ymd.mk 2023 10 13).year ≤ 9999 ∧ (2 : Nat) ≤ 6 ∧
    (∃ e : Ymd, (Ymd.mk 2023 10 13).previousDayOfWeekOccurrence 2 = .ok e ∧ e.Valid ∧
      e.dayOfWeek = 2 ∧ dayNumberL e < dayNumberL (Ymd.mk 2023 10 13) ∧
      (∀ z : Ymd, z.Valid → 1000 ≤ z.year → z.dayOfWeek = 2 →
        dayNumberL z < dayNumberL (Ymd.mk 2023 10 13) → dayNumberL z ≤ dayNumberL e)) :=
  ⟨by decide, by decide, by decide, by decide,
    (claim_C9_amended (Ymd.mk 2023 10 13) (by decide) (by decide) (by decide) 2 (by decide)).1⟩

set_option maxRecDepth 8000 in
/-- C9 counterexample: 0100-01-15 is a constructible `Ymd`, but the
strictly-before weekday search fails with the format error instead of
returning the nearest earlier Tuesday — the searched date formats with a
three-digit year. -/
theorem claim_C9_counterexample :
    Ymd.parse "0100-01-15" = .ok ⟨100, 0, 15⟩ ∧
    (Ymd.mk 100 0 15).previousDayOfWeekOccurrence 2 = .error .formatError :=
  ⟨rfl, rfl⟩

set_option maxRecDepth 8000 in
/-- C10 (amended): for valid endpoints with four-digit years, as long as the
inclusive range stays below the maximal representable date 9999-12-31,
`dayArray` succeeds with a list that is empty exactly when `from > to` and is
the singleton `[from]` when `from = to`, and a full drain of `dayGenerator`
yields exactly the same list with no terminal error; concretely for January
2024 ranges.  (At the upper edge the frozen claim fails: with
`from = to = 9999-12-31` the eager form throws while the lazy form still
yields the date before failing, so the two forms disagree — see the
counterexample.) -/
theorem claim_C10_amended (f t : Ymd) (hf : f.Valid) (ht : t.Valid)
    (hfy1 : 1000 ≤ f.year) (hty1 : 1000 ≤ t.year)
    (hmax : dayNumberL t < dayNumber ⟨9999, 11, 31⟩) :
    (∃ l : List Ymd, f.dayArray t = .ok l ∧ f.dayGenerator t = (l, none) ∧
      (l = [] ↔ f.gt t = true) ∧ (f = t → l = [f])) ∧
    (Ymd.mk 2024 0 2).dayArray (Ymd.mk 2024 0 1) = .ok [] ∧
    (Ymd.mk 2024 0 1).dayArray (Ymd.mk 2024 0 1) = .ok [Ymd.mk 2024 0 1] ∧
    (Ymd.mk 2024 0 1).dayGenerator (Ymd.mk 2024 0 3) =
      ([Ymd.mk 2024 0 1, Ymd.mk 2024 0 2, Ymd.mk 2024 0 3], none) := by
  refine ⟨?_, rfl, rfl, rfl⟩
  by_cases hgt : f.gt t = true
  · have hlt : dayNumberL t < dayNumberL f := gt_iff.mp hgt
    have hfuel : (dayNumberL t + 1 - dayNumberL f).toNat = 0 :=
      Int.toNat_eq_zero.mpr (by omega)
    refine ⟨[], ?_, ?_, ⟨fun _ => hgt, fun _ => rfl⟩, ?_⟩
    · unfold Ymd.dayArray
      rw [hfuel]
      rfl
    · unfold Ymd.dayGenerator
      rw [hfuel]
      rfl
    · intro hft
      rw [hft] at hlt
      omega
  · have hnlt : ¬ dayNumberL t < dayNumberL f := fun hlt => hgt (gt_iff.mpr hlt)
    set fuel := (dayNumberL t + 1 - dayNumberL f).toNat with hfueldef
    have hfuelInt : (fuel : Int) = dayNumberL t + 1 - dayNumberL f := by
      rw [hfueldef]
      exact Int.toNat_of_nonneg (by omega)
    have hArr := dayArrayAux_ok fuel t f hf ht hfy1 hty1 hfuelInt hmax
    have hA : f.dayArray t = .ok (rangeList (civilOfYmd f) fuel) := hArr
    have hG : f.dayGenerator t = (rangeList (civilOfYmd f) fuel, none) :=
      (dayGenAux_eq_ok fuel t f _).mp hArr
    have hfpos : 1 ≤ fuel := by omega
    refine ⟨rangeList (civilOfYmd f) fuel, hA, hG, ⟨?_, ?_⟩, ?_⟩
    · intro hnil
      have hlen := rangeList_length (civilOfYmd f) fuel
      rw [hnil] at hlen
      simp at hlen
      omega
    · intro hg
      exact absurd hg hgt
    · intro hft
      have hdeq : dayNumberL t = dayNumberL f := by rw [hft]
      have hfuel1 : fuel = 1 := by omega
      rw [hfuel1]
      show rangeList (civilOfYmd f) (0 + 1) = [f]
      rw [rangeList_succ, rangeList_zero, toYmd_civilOfYmd]

set_option maxRecDepth 8000 in
/-- C10 witness: the theorem applied to the range 2024-01-01 .. 2024-01-03. -/
theorem claim_C10_witness :
    (Ymd.mk 2024 0 1).Valid ∧ (Ymd.mk 2024 0 3).Valid ∧
    dayNumberL (Ymd.mk 2024 0 3) < dayNumber ⟨9999, 11, 31⟩ ∧
    (∃ l : List Ymd, (Ymd.mk 2024 0 1).dayArray (Ymd.mk 2024 0 3) = .ok l ∧
      (Ymd.mk 2024 0 1).dayGenerator (Ymd.mk 2024 0 3) = (l, none) ∧
      (l = [] ↔ (Ymd.mk 2024 0 1).gt (Ymd.mk 2024 0 3) = true) ∧
      (Ymd.mk 2024 0 1 = Ymd.mk 2024 0 3 → l = [Ymd.mk 2024 0 1])) :=
  ⟨by decide, by decide, by decide,
    (claim_C10_amended (Ymd.mk 2024 0 1) (Ymd.mk 2024 0 3) (by decide) (by decide)
      (by decide) (by decide) (by decide)).1⟩

set_option maxRecDepth 8000 in
/-- C10 counterexample: 9999-12-31 is a constructible `Ymd`, yet with
`from = to = 9999-12-31` the eager `dayArray` is not a singleton but the
format error (the loop's `addDays(1)` formats year 10000, which the re-parse
rejects), while the lazy `dayGenerator` yields the date and then the same
error — so the eager and lazy forms disagree. -/
theorem claim_C10_counterexample :
    Ymd.parse "9999-12-31" = .ok ⟨9999, 11, 31⟩ ∧
    (Ymd.mk 9999 11 31).dayArray (Ymd.mk 9999 11 31) = .error .formatError ∧
    (Ymd.mk 9999 11 31).dayGenerator (Ymd.mk 9999 11 31) =
      ([Ymd.mk 9999 11 31], some .formatError) :=
  ⟨rfl, rfl, rfl⟩

theorem exceptBind_ok {α β : Type} (a : α) (f : α → Except YmdError β) :
    (Except.ok a >>= f : Except YmdError β) = f a := rfl

theorem rangeList_chain' {c : CivilDate} (hc : c.Valid) (h1 : 1000 ≤ c.year) (n : Nat)
    (hmax : dayNumber c + (n : Int) ≤ dayNumber ⟨(9999 : Int), 11, 31⟩ + 1) :
    List.Chain' (fun a b => dayNumberL b = dayNumberL a + 1) (rangeList c n) := by
  rw [List.chain'_iff_get]
  intro i hi
  rw [rangeList_length] at hi
  have g1 := rangeList_getElem c n i (by omega)
  have g2 := rangeList_getElem c n (i + 1) (by omega)
  rw [g1, g2]
  have e1 := (element_spec hc h1 (i : Int) (by omega) (by omega)).2.2.2
  have e2 := (element_spec hc h1 ((i + 1 : Nat) : Int) (by omega) (by omega)).2.2.2
  omega

set_option maxRecDepth 8000 in
/-- C5 (amended): for a valid `Ymd` with year in 1001..9998 and a week-start
index 0..6, `calendarWeeksForMonth` succeeds and returns the padded range of
`calendarMonthDateRange` split into weeks: every week has exactly 7 days, the
concatenation is the inclusive `dayArray` enumeration from the range start to
the range end — day numbers increasing by exactly 1, so chronological with no
gaps or duplicates — its length is a multiple of 7, it runs from the
current-or-previous week-start occurrence before the month's first day to the
current-or-next week-end occurrence after its last day, and it contains every
valid day of the target month.  (For constructible dates with smaller years
the claim as frozen fails: the padding's re-parses throw the format error —
see the counterexample.) -/
theorem claim_C5_amended (x : Ymd) (hx : x.Valid) (hy1 : 1001 ≤ x.year)
    (hy2 : x.year ≤ 9998) (ws : Nat) (hws : ws ≤ 6) :
    ∃ (s e : Ymd) (weeks : List (List Ymd)),
      x.calendarMonthDateRange ws = .ok (s, e) ∧
      x.calendarWeeksForMonth ws = .ok weeks ∧
      Ymd.dayArray s e = .ok weeks.flatten ∧
      (∀ w ∈ weeks, w.length = 7) ∧
      7 ∣ weeks.flatten.length ∧
      List.Chain' (fun a b => dayNumberL b = dayNumberL a + 1) weeks.flatten ∧
      s.dayOfWeek = ws ∧ e.dayOfWeek = (ws + 7 - 1) % 7 ∧
      s ∈ weeks.flatten ∧ e ∈ weeks.flatten ∧
      (∀ d ∈ weeks.flatten, dayNumberL s ≤ dayNumberL d ∧ dayNumberL d ≤ dayNumberL e) ∧
      (∀ d : Ymd, d.Valid → d.year = x.year → d.monthZeroIndexed = x.monthZeroIndexed →
        d ∈ weeks.flatten) := by
  have hm11 : x.monthZeroIndexed ≤ 11 := hx.2.1
  have hstart := startOfMonth_ok hx (by omega)
  have hmsv : (Ymd.mk x.year x.monthZeroIndexed 1).Valid :=
    ymd_valid_mk (by omega) hm11 (le_refl 1) (daysInMonth_pos _ _)
  have hmsciv : civilOfYmd (Ymd.mk x.year x.monthZeroIndexed 1) =
      ⟨(x.year : Int), x.monthZeroIndexed, 1⟩ := rfl
  have hmsdn : dayNumberL (Ymd.mk x.year x.monthZeroIndexed 1) =
      dayNumber ⟨(x.year : Int), x.monthZeroIndexed, 1⟩ := by
    rw [dayNumberL_eq hmsv (by show 100 ≤ x.year; omega), hmsciv]
  have hend := endOfMonth_ok hx (by omega) hy2
  have hmev : (Ymd.mk x.year x.monthZeroIndexed
      (daysInMonth (x.year : Int) x.monthZeroIndexed)).Valid :=
    ymd_valid_mk (by omega) hm11 (daysInMonth_pos _ _) (le_refl _)
  have hmeciv : civilOfYmd (Ymd.mk x.year x.monthZeroIndexed
      (daysInMonth (x.year : Int) x.monthZeroIndexed)) =
      ⟨(x.year : Int), x.monthZeroIndexed, daysInMonth (x.year : Int) x.monthZeroIndexed⟩ := rfl
  have hmedn : dayNumberL (Ymd.mk x.year x.monthZeroIndexed
      (daysInMonth (x.year : Int) x.monthZeroIndexed)) =
      dayNumber ⟨(x.year : Int), x.monthZeroIndexed,
        daysInMonth (x.year : Int) x.monthZeroIndexed⟩ := by
    rw [dayNumberL_eq hmev (by show 100 ≤ x.year; omega), hmeciv]
  have hmscv : (CivilDate.mk (x.year : Int) x.monthZeroIndexed 1).Valid :=
    civil_valid_mk hm11 (le_refl 1) (daysInMonth_pos _ _)
  have hyearstart := dayNumber_ge_year_start hmscv
  rw [civil_mk_year] at hyearstart
  have hgap1000 : dayNumber ⟨(1000 : Int), 0, 1⟩ + 365 ≤ dayNumber ⟨(1001 : Int), 0, 1⟩ := by
    have := yearStart_gap 1000
    norm_num at this
    exact this
  have hmono1001 : dayNumber ⟨(1001 : Int), 0, 1⟩ ≤ dayNumber ⟨(x.year : Int), 0, 1⟩ :=
    yearStart_mono (by omega)
  have hlow_ms : dayNumber ⟨(1000 : Int), 0, 1⟩ + 7 ≤
      dayNumberL (Ymd.mk x.year x.monthZeroIndexed 1) := by
    rw [hmsdn]
    omega
  have hmecv : (CivilDate.mk (x.year : Int) x.monthZeroIndexed
      (daysInMonth (x.year : Int) x.monthZeroIndexed)).Valid :=
    civil_valid_mk hm11 (daysInMonth_pos _ _) (le_refl _)
  have hyearend := dayNumber_le_year_end hmecv
  rw [civil_mk_year] at hyearend
  have hmono9998 : dayNumber ⟨(x.year : Int), 11, 31⟩ ≤ dayNumber ⟨(9998 : Int), 11, 31⟩ :=
    yearEnd_mono (by omega)
  have hgap9998 : dayNumber ⟨(9998 : Int), 11, 31⟩ + 365 ≤ dayNumber ⟨(9999 : Int), 11, 31⟩ := by
    have := yearEnd_gap 9998
    norm_num at this
    exact this
  have hhigh_me : dayNumberL (Ymd.mk x.year x.monthZeroIndexed
      (daysInMonth (x.year : Int) x.monthZeroIndexed)) + 7 ≤
      dayNumber ⟨(9999 : Int), 11, 31⟩ := by
    rw [hmedn]
    omega
  obtain ⟨s, hsok, hsv, hsy1, hsy2, hs_lb, hs_ub, hs_dow⟩ :=
    currentOrPreviousDayOfWeekOccurrence_ok hmsv hws (by show 1000 ≤ x.year; omega)
      (by show x.year ≤ 9999; omega) hlow_ms
  have hwe : (ws + 7 - 1) % 7 ≤ 6 := by omega
  obtain ⟨e, heok, hev, hey1, hey2, he_lb, he_ub, he_dow⟩ :=
    currentOrNextDayOfWeekOccurrence_ok hmev hwe (by show 1000 ≤ x.year; omega)
      (by show x.year ≤ 9999; omega) hhigh_me
  have hrange : x.calendarMonthDateRange ws = .ok (s, e) := by
    unfold Ymd.calendarMonthDateRange
    simp only [hstart, exceptBind_ok, hend, hsok, heok]
    rfl
  have hms_me : dayNumberL (Ymd.mk x.year x.monthZeroIndexed 1) ≤
      dayNumberL (Ymd.mk x.year x.monthZeroIndexed
        (daysInMonth (x.year : Int) x.monthZeroIndexed)) := by
    rw [hmsdn, hmedn]
    exact dayNumber_day_mono (daysInMonth_pos _ _)
  have hse : dayNumberL s ≤ dayNumberL e := by omega
  have hmaxe : dayNumberL e < dayNumber ⟨(9999 : Int), 11, 31⟩ := by
    rw [hmedn] at he_ub
    omega
  set fuel := (dayNumberL e + 1 - dayNumberL s).toNat with hfueldef
  have hfuelInt : (fuel : Int) = dayNumberL e + 1 - dayNumberL s := by
    rw [hfueldef]
    exact Int.toNat_of_nonneg (by omega)
  have hArr := dayArrayAux_ok fuel e s hsv hev hsy1 hey1 hfuelInt hmaxe
  have hA : Ymd.dayArray s e = .ok (rangeList (civilOfYmd s) fuel) := hArr
  have hscv : (civilOfYmd s).Valid := civilOfYmd_valid hsv
  have hecv : (civilOfYmd e).Valid := civilOfYmd_valid hev
  have hsdn : dayNumberL s = dayNumber (civilOfYmd s) := dayNumberL_eq hsv (by omega)
  have hedn : dayNumberL e = dayNumber (civilOfYmd e) := dayNumberL_eq hev (by omega)
  have hs1000 : (1000 : Int) ≤ (civilOfYmd s).year := by
    show (1000 : Int) ≤ (s.year : Int)
    omega
  have hlen : (rangeList (civilOfYmd s) fuel).length = fuel := rangeList_length _ _
  have hdvd7 : 7 ∣ fuel := by
    have hs7 := hs_dow
    have he7 := he_dow
    rw [dayOfWeek_def] at hs7 he7
    omega
  obtain ⟨hchunklen, hchunkflat⟩ := chunksOf7Aux_spec (rangeList (civilOfYmd s) fuel).length
    (rangeList (civilOfYmd s) fuel) (le_refl _)
  have hflat : (chunksOf7 (rangeList (civilOfYmd s) fuel)).flatten =
      rangeList (civilOfYmd s) fuel := hchunkflat
  have hweeks : x.calendarWeeksForMonth ws = .ok (chunksOf7 (rangeList (civilOfYmd s) fuel)) := by
    unfold Ymd.calendarWeeksForMonth
    simp only [hrange, exceptBind_ok, hA]
    rfl
  have hchain : List.Chain' (fun a b => dayNumberL b = dayNumberL a + 1)
      (rangeList (civilOfYmd s) fuel) := by
    refine rangeList_chain' hscv hs1000 fuel ?_
    omega
  have hfpos : 1 ≤ fuel := by omega
  have hsmem : s ∈ rangeList (civilOfYmd s) fuel := by
    refine rangeList_mem.mpr ⟨0, by omega, ?_⟩
    simp [addDaysCivil_zero, toYmd_civilOfYmd]
  have heeq : addDaysCivil (civilOfYmd s) ((fuel - 1 : Nat) : Int) = civilOfYmd e := by
    apply dayNumber_inj (addDaysCivil_valid hscv _) hecv
    rw [addDaysCivil_dayNumber hscv]
    omega
  have hemem : e ∈ rangeList (civilOfYmd s) fuel := by
    refine rangeList_mem.mpr ⟨fuel - 1, by omega, ?_⟩
    rw [heeq, toYmd_civilOfYmd]
  have hbounds : ∀ d ∈ rangeList (civilOfYmd s) fuel,
      dayNumberL s ≤ dayNumberL d ∧ dayNumberL d ≤ dayNumberL e := by
    intro d hd
    obtain ⟨i, hilt, rfl⟩ := rangeList_mem.mp hd
    have hei := (element_spec hscv hs1000 (i : Int) (by omega) (by omega)).2.2.2
    omega
  have hcover : ∀ d : Ymd, d.Valid → d.year = x.year →
      d.monthZeroIndexed = x.monthZeroIndexed → d ∈ rangeList (civilOfYmd s) fuel := by
    intro d hdv hdy hdm
    have hdcv : (civilOfYmd d).Valid := civilOfYmd_valid hdv
    have hcd : civilOfYmd d = ⟨(x.year : Int), x.monthZeroIndexed, d.dayOfMonth⟩ := by
      unfold civilOfYmd
      rw [hdy, hdm]
    have hlb : dayNumber ⟨(x.year : Int), x.monthZeroIndexed, 1⟩ ≤
        dayNumber (civilOfYmd d) := by
      rw [hcd]
      exact dayNumber_day_mono hdv.2.2.1
    have hub : dayNumber (civilOfYmd d) ≤ dayNumber ⟨(x.year : Int), x.monthZeroIndexed,
        daysInMonth (x.year : Int) x.monthZeroIndexed⟩ := by
      rw [hcd]
      refine dayNumber_day_mono ?_
      have hdub := hdv.2.2.2
      rw [hdy, hdm] at hdub
      exact hdub
    have hi0 : (0 : Int) ≤ dayNumber (civilOfYmd d) - dayNumberL s := by omega
    have hilt : dayNumber (civilOfYmd d) - dayNumberL s < (fuel : Int) := by omega
    have hieq : addDaysCivil (civilOfYmd s)
        (((dayNumber (civilOfYmd d) - dayNumberL s).toNat : Nat) : Int) = civilOfYmd d := by
      apply dayNumber_inj (addDaysCivil_valid hscv _) hdcv
      rw [addDaysCivil_dayNumber hscv]
      omega
    refine rangeList_mem.mpr ⟨(dayNumber (civilOfYmd d) - dayNumberL s).toNat, by omega, ?_⟩
    rw [hieq, toYmd_civilOfYmd]
  refine ⟨s, e, chunksOf7 (rangeList (civilOfYmd s) fuel), hrange, hweeks, ?_, ?_, ?_, ?_,
    hs_dow, he_dow, ?_, ?_, ?_, ?_⟩
  · rw [hflat]
    exact hA
  · intro w hw
    exact hchunklen (by rw [hlen]; exact hdvd7) w hw
  · rw [hflat, hlen]
    exact hdvd7
  · rw [hflat]
    exact hchain
  · rw [hflat]
    exact hsmem
  · rw [hflat]
    exact hemem
  · rw [hflat]
    exact hbounds
  · rw [hflat]
    exact hcover

set_option maxRecDepth 8000 in
/-- C5 witness: the theorem applied to November 2023 with weeks starting on
Sunday. -/
theorem claim_C5_witness :
    (Ymd.mk 2023 10 13).Valid ∧ 1001 ≤ (Ymd.mk 2023 10 13).year ∧
    (Ymd.mk 2023 10 13).year ≤ 9998 ∧ (0 : Nat) ≤ 6 ∧
    (∃ (s e : Ymd) (weeks : List (List Ymd)),
      (Ymd.mk 2023 10 13).calendarMonthDateRange 0 = .ok (s, e) ∧
      (Ymd.mk 2023 10 13).calendarWeeksForMonth 0 = .ok weeks ∧
      Ymd.dayArray s e = .ok weeks.flatten ∧
      (∀ w ∈ weeks, w.length = 7) ∧
      7 ∣ weeks.flatten.length ∧
      List.Chain' (fun a b => dayNumberL b = dayNumberL a + 1) weeks.flatten ∧
      s.dayOfWeek = 0 ∧ e.dayOfWeek = (0 + 7 - 1) % 7 ∧
      s ∈ weeks.flatten ∧ e ∈ weeks.flatten ∧
      (∀ d ∈ weeks.flatten, dayNumberL s ≤ dayNumberL d ∧ dayNumberL d ≤ dayNumberL e) ∧
      (∀ d : Ymd, d.Valid → d.year = (Ymd.mk 2023 10 13).year →
        d.monthZeroIndexed = (Ymd.mk 2023 10 13).monthZeroIndexed →
        d ∈ weeks.flatten)) :=
  ⟨by decide, by decide, by decide, by decide,
    claim_C5_amended (Ymd.mk 2023 10 13) (by decide) (by decide) (by decide) 0 (by decide)⟩

set_option maxRecDepth 8000 in
/-- C5 counterexample: 0100-01-15 is a constructible valid `Ymd`, but
`calendarWeeksForMonth` fails with the format error instead of returning any
weeks — the padding searches re-parse dates that format with a three-digit
year. -/
theorem claim_C5_counterexample :
    Ymd.parse "0100-01-15" = .ok ⟨100, 0, 15⟩ ∧
    (Ymd.mk 100 0 15).calendarWeeksForMonth 0 = .error .formatError :=
  ⟨rfl, rfl⟩
